import Mathlib

/-!
Verification of the word-to-udf conversion core.

Shallow embedding of the repository's generator and parser logic:
  * `src/unnamed/part_000`  — class `UdfGenerator` (footnote-aware generator),
    embedded in namespace `UdfGenerator`;
  * `src/js/udf-generator.js` — class `UdfGenerator` (generator without
    footnote handling), embedded in namespace `JsUdfGenerator`;
  * `src/js/docx-parser.js` — class `DocxParser` (only the error wrapper of
    `parse` is claim-relevant), embedded in namespace `DocxParser`;
  * `src/js/utils.js` — `escapeXml`.

Modelling conventions:
  * JS strings are modelled as Lean `String`; all characters the generator
    itself appends (`\n`, `\t`, U+200B, U+FFFC, U+2500) are single UTF-16
    units, so JS `.length` agrees with `String.length` on them.
  * The generator pushes XML strings into `this.elements`; here each pushed
    string is represented by a structured value (`Elem`, `Leaf`, `CellOut`)
    recording exactly the fields interpolated into the source's template
    string, together with a `render` function reproducing that string.
  * JS truthiness tests on optional values are modelled explicitly
    (`jsTruthyStr`, `jsTruthyInt`, ...): `undefined`/`null`, `""` and `0`
    are falsy.
  * JS 32-bit bitwise semantics (`| 0`, `<<`, `|`) are modelled on `Nat`
    with an explicit `% 2^32` and a signed reinterpretation `toSigned32`.
-/

/-- `n` reduced to an unsigned 32-bit value (JS `ToUint32`). -/
def toUint32 (n : Nat) : Nat := n % 4294967296

/-- Reinterpret the low 32 bits of `n` as a signed 32-bit integer
(JS `x | 0` on a nonnegative value, `ToInt32`). -/
def toSigned32 (n : Nat) : Int :=
  let m := toUint32 n
  if m < 2147483648 then (m : Int) else (m : Int) - 4294967296

/-- Value of one hexadecimal digit, `none` if the character is not one. -/
def hexDigitVal (c : Char) : Option Nat :=
  if '0' ≤ c ∧ c ≤ '9' then some (c.toNat - '0'.toNat)
  else if 'a' ≤ c ∧ c ≤ 'f' then some (c.toNat - 'a'.toNat + 10)
  else if 'A' ≤ c ∧ c ≤ 'F' then some (c.toNat - 'A'.toNat + 10)
  else none

/-- Longest hex-digit prefix of `cs`, folded as a base-16 number onto `acc`
(parsing stops at the first non-hex character, as JS `parseInt` does). -/
def hexPrefixVal (acc : Nat) : List Char → Nat
  | [] => acc
  | c :: rest =>
    match hexDigitVal c with
    | some d => hexPrefixVal (acc * 16 + d) rest
    | none => acc

/-- JS `parseInt(s, 16)` on the strings reaching it here (no sign or blank
handling, which hex colour substrings never contain): parses the longest
hex-digit prefix, `none` (JS `NaN`) when there is none. -/
def jsParseIntHex (cs : List Char) : Option Nat :=
  match cs with
  | [] => none
  | c :: rest =>
    match hexDigitVal c with
    | none => none
    | some d => some (hexPrefixVal d rest)

/-- JS `parseInt(s, 10)` restricted to an optional sign followed by digits
(what `numId` attribute values look like); `none` models `NaN`. -/
def jsParseIntDec (cs : List Char) : Option Int :=
  let digits : List Char → Option Nat := fun l =>
    match l with
    | [] => none
    | c :: rest =>
      if c.isDigit then
        some (rest.foldl (fun acc c' => if c'.isDigit then acc * 10 + (c'.toNat - '0'.toNat) else acc)
          (c.toNat - '0'.toNat))
      else none
  match cs with
  | '-' :: rest => (digits rest).map (fun n => -(n : Int))
  | '+' :: rest => (digits rest).map (fun n => (n : Int))
  | l => (digits l).map (fun n => (n : Int))

/-- JS truthiness of an optional string (`undefined` and `""` are falsy). -/
def jsTruthyStr : Option String → Bool
  | none => false
  | some s => s ≠ ""

/-- JS truthiness of an optional number (`undefined` and `0` are falsy). -/
def jsTruthyInt : Option Int → Bool
  | none => false
  | some n => n ≠ 0

/-- JS truthiness of an optional natural number (`undefined`, `0` falsy). -/
def jsTruthyNat : Option Nat → Bool
  | none => false
  | some n => n ≠ 0

/-- `escapeXml` from `src/js/utils.js`: the five sequential global replaces
(`&` first) are equivalent to this single character map, since none of the
replacement texts contains a character replaced by a later step. -/
def escapeXml (text : String) : String :=
  String.join (text.toList.map (fun c =>
    if c = '&' then "&amp;"
    else if c = '<' then "&lt;"
    else if c = '>' then "&gt;"
    else if c = '"' then "&quot;"
    else if c = '\'' then "&apos;"
    else String.singleton c))

/-- JS `Math.round (a / b)` for integers `a`, `b` with `b > 0` (round half
toward `+∞`): `⌊a/b + 1/2⌋ = ⌊(2a+b) / (2b)⌋` with floor division.
The degenerate JS case `b = 0` (±Infinity / NaN) is not modelled; no claim
below evaluates a table whose width total or column count is zero. -/
def roundHalfUpInt (a b : Int) : Int := Int.fdiv (2 * a + b) (2 * b)

/-- JS `hex.replace('#', '')`: removes the first occurrence of `'#'`. -/
def removeFirstHash : List Char → List Char
  | [] => []
  | c :: rest => if c = '#' then rest else c :: removeFirstHash rest

/-! ## Document model (output of `DocxParser`, input of the generators)

Field names follow the object literals built in `src/js/docx-parser.js`
(`parseRun`, `parseParagraph`, `parseTable`, `parseTableRow`,
`parseTableCell`).  Optional fields model JS properties that may be
`undefined`. -/

/-- A text run (`parseRun`'s `formatting` object, `type: 'text'`). -/
structure TextRun where
  text : String
  bold : Bool
  italic : Bool
  underline : Bool
  strike : Bool
  fontFamily : Option String
  fontSize : Option Nat
  color : Option String
  deriving Repr, DecidableEq

/-- The run union dispatched on `run.type` by the generators. -/
inductive Run where
  | text (t : TextRun)
  | tab
  | image (data : Option String) (width height : Int)
  | brk                                  -- `type: 'break'`
  | pageBreak                            -- `type: 'pageBreak'`
  | footnoteRef (id content : String)    -- `type: 'footnoteRef'`
  deriving Repr, DecidableEq

/-- Numbering descriptor (`paragraph.numbering`). -/
structure Numbering where
  level : Nat
  numId : String
  deriving Repr, DecidableEq

/-- A paragraph (`parseParagraph`'s object, `type: 'paragraph'`). -/
structure Paragraph where
  alignment : String
  leftIndent : Option Int := none
  rightIndent : Option Int := none
  firstLineIndent : Option Int := none
  numbering : Option Numbering := none
  runs : List Run
  deriving Repr, DecidableEq

/-- A table cell (`parseTableCell`'s object).  `vMergeContinue` models the
JS property that is `true` for a vertical-merge continuation cell and
`undefined` (falsy) otherwise. -/
structure Cell where
  paragraphs : List Paragraph
  colspan : Int := 1
  vMergeContinue : Bool := false
  vAlign : Option String := none
  bgColor : Option String := none
  deriving Repr, DecidableEq

/-- A table row (`parseTableRow`'s object). -/
structure Row where
  cells : List Cell
  deriving Repr, DecidableEq

/-- A table (`parseTable`'s object, `type: 'table'`). -/
structure Table where
  rows : List Row
  columnWidths : List Int
  border : String
  deriving Repr, DecidableEq

/-- A top-level block, dispatched on `element.type` in `generate`. -/
inductive DocBlock where
  | paragraph (p : Paragraph)
  | table (t : Table)
  deriving Repr, DecidableEq

/-- The parsed document handed to `generate` (`document.elements`). -/
structure Document where
  elements : List DocBlock
  deriving Repr, DecidableEq

/-! ## Emitted-element model (the strings pushed into `this.elements`)

The generators push XML strings built from template literals.  Each pushed
string is modelled by a structured value recording exactly the interpolated
fields; `renderElem` below reproduces the pushed string verbatim. -/

/-- A leaf element carrying a `(startOffset, length)` range: the `content`,
`tab` and `image` template strings of both generators. -/
inductive Leaf where
  | content (startOffset len : Nat) (attrs : String)
  | tab (startOffset : Nat)
  | image (startOffset : Nat) (data : String) (width height : Int)
  deriving Repr, DecidableEq

/-- The `(startOffset, length)` pair interpolated into a leaf's template
string (`tab` and `image` always carry `length="1"`). -/
def Leaf.range : Leaf → Nat × Nat
  | .content s l _ => (s, l)
  | .tab s => (s, 1)
  | .image s _ _ _ => (s, 1)

/-- One `<paragraph …>…</paragraph>` string inside a table cell. -/
structure ParaOut where
  attrs : String
  children : List Leaf
  deriving Repr, DecidableEq

/-- One `<cell…>…</cell>` string inside a table row. -/
structure CellOut where
  attrs : String
  paras : List ParaOut
  deriving Repr, DecidableEq

/-- A string pushed into `this.elements`: a paragraph, the literal
`<page-break />`, or a whole table. -/
inductive Elem where
  | paragraph (attrs : String) (children : List Leaf)
  | pageBreak
  | table (columnCount : Nat) (columnSpans : String) (border : String)
      (rows : List (List CellOut))
  deriving Repr, DecidableEq

/-- Leaves of a cell, in the order their template strings were built. -/
def CellOut.leaves (c : CellOut) : List Leaf :=
  (c.paras.map ParaOut.children).flatten

/-- Leaves of one emitted element, in emission order. -/
def Elem.leaves : Elem → List Leaf
  | .paragraph _ ch => ch
  | .pageBreak => []
  | .table _ _ _ rows =>
    (rows.map (fun r => (r.map CellOut.leaves).flatten)).flatten

/-- All content/tab/image leaves of an element list, in emission order. -/
def elemsLeaves (es : List Elem) : List Leaf :=
  (es.map Elem.leaves).flatten

/-- The `(startOffset, length)` pairs of an element list, in emission
order. -/
def leafRanges (es : List Elem) : List (Nat × Nat) :=
  (elemsLeaves es).map Leaf.range

/-- Render one leaf exactly as the source's template literal does. -/
def renderLeaf : Leaf → String
  | .content s l attrs =>
    "<content startOffset=\"" ++ toString s ++ "\" length=\"" ++ toString l
      ++ "\" " ++ attrs ++ " />"
  | .tab s =>
    "<tab startOffset=\"" ++ toString s ++ "\" length=\"1\" />"
  | .image s data w h =>
    "<image startOffset=\"" ++ toString s ++ "\" length=\"1\" imageData=\""
      ++ data ++ "\" width=\"" ++ toString w ++ "\" height=\"" ++ toString h
      ++ "\" />"

/-- Render a paragraph string (`buildParagraphElement`'s return value). -/
def renderPara (attrs : String) (children : List Leaf) : String :=
  "<paragraph " ++ attrs ++ ">" ++ String.join (children.map renderLeaf)
    ++ "</paragraph>"

/-- Render a cell string (the `<cell…>…</cell>` template). -/
def renderCell (c : CellOut) : String :=
  "<cell" ++ c.attrs ++ ">"
    ++ String.join (c.paras.map (fun p => renderPara p.attrs p.children))
    ++ "</cell>"

/-- Render a row string; `i` is the 0-based row index (`rowName="row${i+1}"`). -/
def renderRow (i : Nat) (cells : List CellOut) : String :=
  "<row rowName=\"row" ++ toString (i + 1) ++ "\" rowType=\"dataRow\">"
    ++ String.join (cells.map renderCell) ++ "</row>"

/-- Render one pushed element string. -/
def renderElem : Elem → String
  | .paragraph attrs ch => renderPara attrs ch
  | .pageBreak => "<page-break />"
  | .table cc spans border rows =>
    "<table tableName=\"Table\" columnCount=\"" ++ toString cc
      ++ "\" columnSpans=\"" ++ spans ++ "\" border=\"" ++ border ++ "\">"
      ++ String.join (rows.enum.map (fun p => renderRow p.1 p.2))
      ++ "</table>"

/-- Attribute string of the placeholder content elements
(`family="Times New Roman" size="12"` in the source templates). -/
def defaultContentAttrs : String := "family=\"Times New Roman\" size=\"12\""

/-- Attribute string of superscripted footnote-label content elements. -/
def superscriptAttrs : String :=
  "family=\"Times New Roman\" size=\"10\" superscript=\"true\""

/-- Attribute string of footnote body / separator content elements. -/
def footnoteTextAttrs : String := "family=\"Times New Roman\" size=\"10\""

/-- Attribute string of the placeholder paragraphs pushed as literals. -/
def defaultParaAttrs : String :=
  "Alignment=\"0\" LeftIndent=\"0.0\" RightIndent=\"0.0\""

/-- The fixed-width rule of the footnote section: 20 × U+2500
(`const separator` in `appendFootnotesSection`). -/
def separatorLine : String := "────────────────────"

/-! ## The footnote-aware generator (`src/unnamed/part_000`) -/

namespace UdfGenerator

/-- One entry of `this.collectedFootnotes` (`{number, text}`). -/
structure Footnote where
  number : String
  text : String
  deriving Repr, DecidableEq

/-- The generator's mutable instance state. -/
structure GenState where
  content : String
  elements : List Elem
  currentOffset : Nat
  collectedFootnotes : List Footnote
  deriving Repr, DecidableEq

/-- The state set up at the top of `generate` (lines 20–24). -/
def initState : GenState :=
  { content := "", elements := [], currentOffset := 0, collectedFootnotes := [] }

/-- `hexToRgbInt` (lines 399–410): `#RRGGBB` to a Java-style signed 32-bit
ARGB integer with alpha `0xFF`; a falsy argument yields `-16777216`. -/
def hexToRgbInt (hex : Option String) : Int :=
  if jsTruthyStr hex = false then -16777216
  else
    let h := removeFirstHash ((hex.getD "").toList)
    let r := (jsParseIntHex (h.take 2)).getD 0
    let g := (jsParseIntHex ((h.drop 2).take 2)).getD 0
    let b := (jsParseIntHex ((h.drop 4).take 2)).getD 0
    toSigned32 (Nat.lor (Nat.lor (Nat.lor (255 <<< 24) (r <<< 16)) (g <<< 8)) b)

/-- `run.fontFamily || 'Times New Roman'` and the like. -/
def jsOrStr (o : Option String) (d : String) : String :=
  if jsTruthyStr o then o.getD "" else d

/-- `run.fontSize || 12`. -/
def jsOrNat (o : Option Nat) (d : Nat) : Nat :=
  if jsTruthyNat o then o.getD 0 else d

/-- `buildContentAttrs` (lines 233–251). -/
def buildContentAttrs (t : TextRun) : String :=
  let attrs := ["family=\"" ++ escapeXml (jsOrStr t.fontFamily "Times New Roman") ++ "\""]
  let attrs := attrs ++ ["size=\"" ++ toString (jsOrNat t.fontSize 12) ++ "\""]
  let attrs := attrs ++ (if t.bold then ["bold=\"true\""] else [])
  let attrs := attrs ++ (if t.italic then ["italic=\"true\""] else [])
  let attrs := attrs ++ (if t.underline then ["underline=\"true\""] else [])
  let attrs := attrs ++ (if t.strike then ["strikethrough=\"true\""] else [])
  let attrs := attrs ++
    (if jsTruthyStr t.color then ["foreground=\"" ++ toString (hexToRgbInt t.color) ++ "\""] else [])
  String.intercalate " " attrs

/-- The `alignmentMap[...] || '0'` lookup of `buildParagraphElement`. -/
def alignCode (a : String) : String :=
  if a = "left" then "0"
  else if a = "center" then "1"
  else if a = "right" then "2"
  else if a = "justify" then "3"
  else "0"

/-- The attribute string assembled by `buildParagraphElement`
(lines 181–225); the surrounding `<paragraph …>…</paragraph>` wrapper is the
`Elem.paragraph` constructor. -/
def buildParagraphAttrs (p : Paragraph) : String :=
  let attrs := "Alignment=\"" ++ alignCode p.alignment ++ "\""
  let attrs := attrs ++
    (if jsTruthyInt p.leftIndent then
       " LeftIndent=\"" ++ toString (p.leftIndent.getD 0) ++ ".0\""
     else " LeftIndent=\"0.0\"")
  let attrs := attrs ++
    (if jsTruthyInt p.rightIndent then
       " RightIndent=\"" ++ toString (p.rightIndent.getD 0) ++ ".0\""
     else " RightIndent=\"0.0\"")
  let attrs := attrs ++
    (if jsTruthyInt p.firstLineIndent then
       " FirstLineIndent=\"" ++ toString (p.firstLineIndent.getD 0) ++ ".0\""
     else "")
  match p.numbering with
  | none => attrs
  | some nb =>
    let isBulleted : Bool :=
      match jsParseIntDec nb.numId.toList with
      | some n => n % 2 = 0
      | none => false
    if isBulleted then
      attrs ++ " Bulleted=\"true\" BulletType=\"BULLET_TYPE_ELLIPSE\" ListLevel=\""
        ++ toString nb.level ++ "\" ListId=\"" ++ nb.numId ++ "\""
    else
      attrs ++ " Numbered=\"true\" NumberType=\"NUMBER_TYPE_NUMBER_TRE\" ListLevel=\""
        ++ toString nb.level ++ "\" ListId=\"" ++ nb.numId ++ "\""

/-- `appendFootnotesSection` (lines 133–173): blank-line paragraph, separator
paragraph, then one paragraph per collected footnote, each preceded by an
uncovered newline; does not clear `collectedFootnotes` (its caller does). -/
def appendFootnotesSection (st : GenState) : GenState :=
  let st :=
    { st with
      elements := st.elements ++
        [Elem.paragraph defaultParaAttrs
          [Leaf.content st.currentOffset 1 defaultContentAttrs]],
      content := st.content ++ "\n",
      currentOffset := st.currentOffset + 1 }
  let st :=
    { st with
      elements := st.elements ++
        [Elem.paragraph defaultParaAttrs
          [Leaf.content st.currentOffset separatorLine.length footnoteTextAttrs]],
      content := st.content ++ separatorLine,
      currentOffset := st.currentOffset + separatorLine.length }
  st.collectedFootnotes.foldl (fun st fn =>
    let st := { st with content := st.content ++ "\n", currentOffset := st.currentOffset + 1 }
    let numPart := fn.number ++ ". "
    let e1 := Leaf.content st.currentOffset numPart.length superscriptAttrs
    let st := { st with content := st.content ++ numPart,
                        currentOffset := st.currentOffset + numPart.length }
    let e2 := Leaf.content st.currentOffset fn.text.length footnoteTextAttrs
    let st := { st with content := st.content ++ fn.text,
                        currentOffset := st.currentOffset + fn.text.length }
    { st with elements := st.elements ++ [Elem.paragraph defaultParaAttrs [e1, e2]] }) st

/-- The run loop of `processParagraph` (lines 66–127), with the function's
local accumulators `paraContent` (an array of strings — its *emptiness as an
array* is what line 120 tests) and `paraElements` made explicit.
The `[]` case is the code after the loop (placeholder, flush, push);
`pageBreak` returns early without touching the remaining runs. -/
def processParagraphRuns (p : Paragraph) (st : GenState)
    (paraContent : List String) (paraElements : List Leaf) :
    List Run → GenState
  | [] =>
    let fin :=
      if paraContent.isEmpty then
        ({ st with currentOffset := st.currentOffset + 1 },
         paraContent ++ ["​"],
         paraElements ++ [Leaf.content st.currentOffset 1 defaultContentAttrs])
      else (st, paraContent, paraElements)
    { fin.1 with
      content := fin.1.content ++ String.join fin.2.1,
      elements := fin.1.elements ++ [Elem.paragraph (buildParagraphAttrs p) fin.2.2] }
  | .text t :: rest =>
    processParagraphRuns p
      { st with currentOffset := st.currentOffset + t.text.length }
      (paraContent ++ [t.text])
      (paraElements ++ [Leaf.content st.currentOffset t.text.length (buildContentAttrs t)])
      rest
  | .tab :: rest =>
    processParagraphRuns p
      { st with currentOffset := st.currentOffset + 1 }
      (paraContent ++ ["\t"])
      (paraElements ++ [Leaf.tab st.currentOffset])
      rest
  | .image data w h :: rest =>
    if jsTruthyStr data then
      processParagraphRuns p
        { st with currentOffset := st.currentOffset + 1 }
        (paraContent ++ ["￼"])
        (paraElements ++ [Leaf.image st.currentOffset (data.getD "") w h])
        rest
    else
      processParagraphRuns p st paraContent paraElements rest
  | .brk :: rest =>
    processParagraphRuns p
      { st with currentOffset := st.currentOffset + 1 }
      (paraContent ++ ["\n"])
      paraElements
      rest
  | .pageBreak :: _ =>
    let st := { st with content := st.content ++ String.join paraContent }
    let st :=
      if paraElements.isEmpty then st
      else { st with elements := st.elements ++ [Elem.paragraph (buildParagraphAttrs p) paraElements] }
    let st :=
      if st.collectedFootnotes.isEmpty then st
      else { appendFootnotesSection st with collectedFootnotes := [] }
    { st with elements := st.elements ++ [Elem.pageBreak] }
  | .footnoteRef id content :: rest =>
    processParagraphRuns p
      { st with currentOffset := st.currentOffset + id.length,
                collectedFootnotes := st.collectedFootnotes ++ [⟨id, content⟩] }
      (paraContent ++ [id])
      (paraElements ++ [Leaf.content st.currentOffset id.length superscriptAttrs])
      rest

/-- `processParagraph` (lines 60–128). -/
def processParagraph (st : GenState) (p : Paragraph) : GenState :=
  processParagraphRuns p st [] [] p.runs

/-- The run loop inside `processTableCell` (lines 317–348).  `break` and
`pageBreak` runs match no branch of the source's `if`/`else if` chain and
are skipped. -/
def processCellRuns (st : GenState) (paraElements : List Leaf) :
    List Run → GenState × List Leaf
  | [] => (st, paraElements)
  | .text t :: rest =>
    processCellRuns
      { st with content := st.content ++ t.text,
                currentOffset := st.currentOffset + t.text.length }
      (paraElements ++ [Leaf.content st.currentOffset t.text.length (buildContentAttrs t)])
      rest
  | .tab :: rest =>
    processCellRuns
      { st with content := st.content ++ "\t", currentOffset := st.currentOffset + 1 }
      (paraElements ++ [Leaf.tab st.currentOffset])
      rest
  | .image data w h :: rest =>
    if jsTruthyStr data then
      processCellRuns
        { st with content := st.content ++ "￼", currentOffset := st.currentOffset + 1 }
        (paraElements ++ [Leaf.image st.currentOffset (data.getD "") w h])
        rest
    else
      processCellRuns st paraElements rest
  | .brk :: rest => processCellRuns st paraElements rest
  | .pageBreak :: rest => processCellRuns st paraElements rest
  | .footnoteRef id content :: rest =>
    processCellRuns
      { st with content := st.content ++ id,
                currentOffset := st.currentOffset + id.length,
                collectedFootnotes := st.collectedFootnotes ++ [⟨id, content⟩] }
      (paraElements ++ [Leaf.content st.currentOffset id.length superscriptAttrs])
      rest

/-- The paragraph loop of `processTableCell` (lines 313–364): per-paragraph
placeholder (line 351 tests `paraElements.length === 0`), push of the
paragraph string, and an uncovered newline between paragraphs. -/
def processCellParagraphs (st : GenState) :
    List Paragraph → GenState × List ParaOut
  | [] => (st, [])
  | p :: rest =>
    let r1 := processCellRuns st [] p.runs
    let r2 :=
      if r1.2.isEmpty then
        ({ r1.1 with content := r1.1.content ++ " ",
                     currentOffset := r1.1.currentOffset + 1 },
         [Leaf.content r1.1.currentOffset 1 defaultContentAttrs])
      else r1
    let paraOut : ParaOut := ⟨buildParagraphAttrs p, r2.2⟩
    let st3 :=
      if rest.isEmpty then r2.1
      else { r2.1 with content := r2.1.content ++ "\n",
                       currentOffset := r2.1.currentOffset + 1 }
    let r4 := processCellParagraphs st3 rest
    (r4.1, paraOut :: r4.2)

/-- `processTableCell` (lines 310–374), returning the new state and the
cell's paragraph strings (`cellElements`); the empty-cell placeholder is
lines 367–371. -/
def processTableCell (st : GenState) (cell : Cell) : GenState × List ParaOut :=
  let r := processCellParagraphs st cell.paragraphs
  if r.2.isEmpty then
    ({ r.1 with content := r.1.content ++ " ",
                currentOffset := r.1.currentOffset + 1 },
     [⟨defaultParaAttrs, [Leaf.content r.1.currentOffset 1 defaultContentAttrs]⟩])
  else r

/-- The `cellAttrs` string of `processTable` (lines 283–293). -/
def cellAttrs (cell : Cell) : String :=
  (if cell.colspan > 1 then " colspan=\"" ++ toString cell.colspan ++ "\"" else "")
  ++ (if jsTruthyStr cell.bgColor then
        " bgColor=\"" ++ toString (hexToRgbInt cell.bgColor) ++ "\"" else "")
  ++ (if jsTruthyStr cell.vAlign then
        " vAlign=\"" ++ (cell.vAlign.getD "") ++ "\"" else "")

/-- The cell loop of `processTable` (lines 278–296): continuation cells are
skipped by `continue` (line 279). -/
def processRowCells (st : GenState) : List Cell → GenState × List CellOut
  | [] => (st, [])
  | c :: rest =>
    if c.vMergeContinue then processRowCells st rest
    else
      let r1 := processTableCell st c
      let r2 := processRowCells r1.1 rest
      (r2.1, ⟨cellAttrs c, r1.2⟩ :: r2.2)

/-- The row loop of `processTable` (lines 274–299). -/
def processTableRows (st : GenState) : List Row → GenState × List (List CellOut)
  | [] => (st, [])
  | r :: rest =>
    let r1 := processRowCells st r.cells
    let r2 := processTableRows r1.1 rest
    (r2.1, r1.2 :: r2.2)

/-- `columnCount` (lines 258–259): `columnWidths.length` when nonzero
(JS `||` on numbers), else the first row's cell count, else 1. -/
def columnCount (t : Table) : Nat :=
  if t.columnWidths.length ≠ 0 then t.columnWidths.length
  else
    match t.rows with
    | [] => 1
    | r :: _ => r.cells.length

/-- `columnSpans` (lines 262–270). -/
def columnSpans (t : Table) : String :=
  if t.columnWidths.length ≠ 0 then
    let total := t.columnWidths.foldl (· + ·) 0
    String.intercalate ","
      (t.columnWidths.map (fun w => toString (roundHalfUpInt (w * 300) total)))
  else
    let equalWidth := roundHalfUpInt 300 (columnCount t : Int)
    String.intercalate ","
      (List.replicate (columnCount t) (toString equalWidth))

/-- `processTable` (lines 257–303). -/
def processTable (st : GenState) (t : Table) : GenState :=
  let r := processTableRows st t.rows
  { r.1 with
    elements := r.1.elements ++ [Elem.table (columnCount t) (columnSpans t) t.border r.2] }

/-- The block loop of `generate` (lines 27–33). -/
def processBlocks (st : GenState) : List DocBlock → GenState
  | [] => st
  | .paragraph p :: rest => processBlocks (processParagraph st p) rest
  | .table t :: rest => processBlocks (processTable st t) rest

/-- `generate` (lines 19–47) up to the XML string: block loop, document-end
footnote flush (lines 36–38), and the empty-buffer placeholder (lines
40–44, which does *not* advance `currentOffset`). -/
def generate (doc : Document) : GenState :=
  let st := processBlocks initState doc.elements
  let st := if st.collectedFootnotes.isEmpty then st else appendFootnotesSection st
  if st.content.length = 0 then
    { st with
      content := "​",
      elements := st.elements ++
        [Elem.paragraph defaultParaAttrs [Leaf.content 0 1 defaultContentAttrs]] }
  else st

/-- `generateXml` (lines 380–392); the zip packaging of the returned string
(JSZip, lines 50–53) is an external collaborator and is not modelled. -/
def generateXml (st : GenState) : String :=
  "<?xml version=\"1.0\" encoding=\"UTF-8\" ?>\n<template format_id=\"1.8\">\n<content><![CDATA["
    ++ st.content
    ++ "]]></content>\n<properties><pageFormat mediaSizeName=\"1\" leftMargin=\"42.51968479156494\" rightMargin=\"28.34645652770996\" topMargin=\"14.17322826385498\" bottomMargin=\"14.17322826385498\" paperOrientation=\"1\" headerFOffset=\"20.0\" footerFOffset=\"20.0\" /></properties>\n<elements resolver=\"hvl-default\">\n"
    ++ String.intercalate "\n" (st.elements.map renderElem)
    ++ "\n</elements>\n<styles><style name=\"default\" description=\"Geçerli\" family=\"Dialog\" size=\"12\" bold=\"false\" italic=\"false\" foreground=\"-13421773\" FONT_ATTRIBUTE_KEY=\"javax.swing.plaf.FontUIResource[family=Dialog,name=Dialog,style=plain,size=12]\" /><style name=\"hvl-default\" family=\"Times New Roman\" size=\"12\" description=\"Gövde\" /></styles>\n</template>"

end UdfGenerator

/-! ## The generator without footnote handling (`src/js/udf-generator.js`)

Textually identical to `src/unnamed/part_000` except: no
`collectedFootnotes` field, no `footnoteRef` branch in either run loop (such
runs match no branch and are skipped), no footnote flush at a page break,
and no `appendFootnotesSection` / document-end flush. -/

namespace JsUdfGenerator

/-- The generator's mutable instance state (lines 7–11). -/
structure GenState where
  content : String
  elements : List Elem
  currentOffset : Nat
  deriving Repr, DecidableEq

/-- The state set up at the top of `generate` (lines 19–22). -/
def initState : GenState := { content := "", elements := [], currentOffset := 0 }

/-- `hexToRgbInt` (lines 310–321), identical to the other file's. -/
def hexToRgbInt (hex : Option String) : Int :=
  if jsTruthyStr hex = false then -16777216
  else
    let h := removeFirstHash ((hex.getD "").toList)
    let r := (jsParseIntHex (h.take 2)).getD 0
    let g := (jsParseIntHex ((h.drop 2).take 2)).getD 0
    let b := (jsParseIntHex ((h.drop 4).take 2)).getD 0
    toSigned32 (Nat.lor (Nat.lor (Nat.lor (255 <<< 24) (r <<< 16)) (g <<< 8)) b)

/-- `buildContentAttrs` (lines 159–177), identical to the other file's. -/
def buildContentAttrs (t : TextRun) : String :=
  let attrs := ["family=\"" ++ escapeXml (UdfGenerator.jsOrStr t.fontFamily "Times New Roman") ++ "\""]
  let attrs := attrs ++ ["size=\"" ++ toString (UdfGenerator.jsOrNat t.fontSize 12) ++ "\""]
  let attrs := attrs ++ (if t.bold then ["bold=\"true\""] else [])
  let attrs := attrs ++ (if t.italic then ["italic=\"true\""] else [])
  let attrs := attrs ++ (if t.underline then ["underline=\"true\""] else [])
  let attrs := attrs ++ (if t.strike then ["strikethrough=\"true\""] else [])
  let attrs := attrs ++
    (if jsTruthyStr t.color then ["foreground=\"" ++ toString (hexToRgbInt t.color) ++ "\""] else [])
  String.intercalate " " attrs

/-- `buildParagraphElement`'s attribute string (lines 107–152), identical
to the other file's. -/
def buildParagraphAttrs (p : Paragraph) : String :=
  let attrs := "Alignment=\"" ++ UdfGenerator.alignCode p.alignment ++ "\""
  let attrs := attrs ++
    (if jsTruthyInt p.leftIndent then
       " LeftIndent=\"" ++ toString (p.leftIndent.getD 0) ++ ".0\""
     else " LeftIndent=\"0.0\"")
  let attrs := attrs ++
    (if jsTruthyInt p.rightIndent then
       " RightIndent=\"" ++ toString (p.rightIndent.getD 0) ++ ".0\""
     else " RightIndent=\"0.0\"")
  let attrs := attrs ++
    (if jsTruthyInt p.firstLineIndent then
       " FirstLineIndent=\"" ++ toString (p.firstLineIndent.getD 0) ++ ".0\""
     else "")
  match p.numbering with
  | none => attrs
  | some nb =>
    let isBulleted : Bool :=
      match jsParseIntDec nb.numId.toList with
      | some n => n % 2 = 0
      | none => false
    if isBulleted then
      attrs ++ " Bulleted=\"true\" BulletType=\"BULLET_TYPE_ELLIPSE\" ListLevel=\""
        ++ toString nb.level ++ "\" ListId=\"" ++ nb.numId ++ "\""
    else
      attrs ++ " Numbered=\"true\" NumberType=\"NUMBER_TYPE_NUMBER_TRE\" ListLevel=\""
        ++ toString nb.level ++ "\" ListId=\"" ++ nb.numId ++ "\""

/-- The run loop of `processParagraph` (lines 59–98).  A `footnoteRef` run
matches no branch of the `if`/`else if` chain and is skipped; the
`pageBreak` branch (lines 79–87) has no footnote flush. -/
def processParagraphRuns (p : Paragraph) (st : GenState)
    (paraContent : List String) (paraElements : List Leaf) :
    List Run → GenState
  | [] =>
    let fin :=
      if paraContent.isEmpty then
        ({ st with currentOffset := st.currentOffset + 1 },
         paraContent ++ ["​"],
         paraElements ++ [Leaf.content st.currentOffset 1 defaultContentAttrs])
      else (st, paraContent, paraElements)
    { fin.1 with
      content := fin.1.content ++ String.join fin.2.1,
      elements := fin.1.elements ++ [Elem.paragraph (buildParagraphAttrs p) fin.2.2] }
  | .text t :: rest =>
    processParagraphRuns p
      { st with currentOffset := st.currentOffset + t.text.length }
      (paraContent ++ [t.text])
      (paraElements ++ [Leaf.content st.currentOffset t.text.length (buildContentAttrs t)])
      rest
  | .tab :: rest =>
    processParagraphRuns p
      { st with currentOffset := st.currentOffset + 1 }
      (paraContent ++ ["\t"])
      (paraElements ++ [Leaf.tab st.currentOffset])
      rest
  | .image data w h :: rest =>
    if jsTruthyStr data then
      processParagraphRuns p
        { st with currentOffset := st.currentOffset + 1 }
        (paraContent ++ ["￼"])
        (paraElements ++ [Leaf.image st.currentOffset (data.getD "") w h])
        rest
    else
      processParagraphRuns p st paraContent paraElements rest
  | .brk :: rest =>
    processParagraphRuns p
      { st with currentOffset := st.currentOffset + 1 }
      (paraContent ++ ["\n"])
      paraElements
      rest
  | .pageBreak :: _ =>
    let st := { st with content := st.content ++ String.join paraContent }
    let st :=
      if paraElements.isEmpty then st
      else { st with elements := st.elements ++ [Elem.paragraph (buildParagraphAttrs p) paraElements] }
    { st with elements := st.elements ++ [Elem.pageBreak] }
  | .footnoteRef _ _ :: rest =>
    processParagraphRuns p st paraContent paraElements rest

/-- `processParagraph` (lines 53–99). -/
def processParagraph (st : GenState) (p : Paragraph) : GenState :=
  processParagraphRuns p st [] [] p.runs

/-- The run loop inside `processTableCell` (lines 243–259): only text, tab
and image runs match a branch. -/
def processCellRuns (st : GenState) (paraElements : List Leaf) :
    List Run → GenState × List Leaf
  | [] => (st, paraElements)
  | .text t :: rest =>
    processCellRuns
      { st with content := st.content ++ t.text,
                currentOffset := st.currentOffset + t.text.length }
      (paraElements ++ [Leaf.content st.currentOffset t.text.length (buildContentAttrs t)])
      rest
  | .tab :: rest =>
    processCellRuns
      { st with content := st.content ++ "\t", currentOffset := st.currentOffset + 1 }
      (paraElements ++ [Leaf.tab st.currentOffset])
      rest
  | .image data w h :: rest =>
    if jsTruthyStr data then
      processCellRuns
        { st with content := st.content ++ "￼", currentOffset := st.currentOffset + 1 }
        (paraElements ++ [Leaf.image st.currentOffset (data.getD "") w h])
        rest
    else
      processCellRuns st paraElements rest
  | .brk :: rest => processCellRuns st paraElements rest
  | .pageBreak :: rest => processCellRuns st paraElements rest
  | .footnoteRef _ _ :: rest => processCellRuns st paraElements rest

/-- The paragraph loop of `processTableCell` (lines 239–275). -/
def processCellParagraphs (st : GenState) :
    List Paragraph → GenState × List ParaOut
  | [] => (st, [])
  | p :: rest =>
    let r1 := processCellRuns st [] p.runs
    let r2 :=
      if r1.2.isEmpty then
        ({ r1.1 with content := r1.1.content ++ " ",
                     currentOffset := r1.1.currentOffset + 1 },
         [Leaf.content r1.1.currentOffset 1 defaultContentAttrs])
      else r1
    let paraOut : ParaOut := ⟨buildParagraphAttrs p, r2.2⟩
    let st3 :=
      if rest.isEmpty then r2.1
      else { r2.1 with content := r2.1.content ++ "\n",
                       currentOffset := r2.1.currentOffset + 1 }
    let r4 := processCellParagraphs st3 rest
    (r4.1, paraOut :: r4.2)

/-- `processTableCell` (lines 236–285). -/
def processTableCell (st : GenState) (cell : Cell) : GenState × List ParaOut :=
  let r := processCellParagraphs st cell.paragraphs
  if r.2.isEmpty then
    ({ r.1 with content := r.1.content ++ " ",
                currentOffset := r.1.currentOffset + 1 },
     [⟨defaultParaAttrs, [Leaf.content r.1.currentOffset 1 defaultContentAttrs]⟩])
  else r

/-- The `cellAttrs` string of `processTable` (lines 209–219). -/
def cellAttrs (cell : Cell) : String :=
  (if cell.colspan > 1 then " colspan=\"" ++ toString cell.colspan ++ "\"" else "")
  ++ (if jsTruthyStr cell.bgColor then
        " bgColor=\"" ++ toString (hexToRgbInt cell.bgColor) ++ "\"" else "")
  ++ (if jsTruthyStr cell.vAlign then
        " vAlign=\"" ++ (cell.vAlign.getD "") ++ "\"" else "")

/-- The cell loop of `processTable` (lines 204–222). -/
def processRowCells (st : GenState) : List Cell → GenState × List CellOut
  | [] => (st, [])
  | c :: rest =>
    if c.vMergeContinue then processRowCells st rest
    else
      let r1 := processTableCell st c
      let r2 := processRowCells r1.1 rest
      (r2.1, ⟨cellAttrs c, r1.2⟩ :: r2.2)

/-- The row loop of `processTable` (lines 200–225). -/
def processTableRows (st : GenState) : List Row → GenState × List (List CellOut)
  | [] => (st, [])
  | r :: rest =>
    let r1 := processRowCells st r.cells
    let r2 := processTableRows r1.1 rest
    (r2.1, r1.2 :: r2.2)

/-- `processTable` (lines 183–229); `columnCount` and `columnSpans` are
computed exactly as in the other file. -/
def processTable (st : GenState) (t : Table) : GenState :=
  let r := processTableRows st t.rows
  { r.1 with
    elements := r.1.elements ++
      [Elem.table (UdfGenerator.columnCount t) (UdfGenerator.columnSpans t) t.border r.2] }

/-- The block loop of `generate` (lines 25–31). -/
def processBlocks (st : GenState) : List DocBlock → GenState
  | [] => st
  | .paragraph p :: rest => processBlocks (processParagraph st p) rest
  | .table t :: rest => processBlocks (processTable st t) rest

/-- `generate` (lines 18–47) up to the XML string: no footnote flush,
then the empty-buffer placeholder (lines 34–37). -/
def generate (doc : Document) : GenState :=
  let st := processBlocks initState doc.elements
  if st.content.length = 0 then
    { st with
      content := "​",
      elements := st.elements ++
        [Elem.paragraph defaultParaAttrs [Leaf.content 0 1 defaultContentAttrs]] }
  else st

/-- `generateXml` (lines 291–303), identical to the other file's. -/
def generateXml (st : GenState) : String :=
  "<?xml version=\"1.0\" encoding=\"UTF-8\" ?>\n<template format_id=\"1.8\">\n<content><![CDATA["
    ++ st.content
    ++ "]]></content>\n<properties><pageFormat mediaSizeName=\"1\" leftMargin=\"42.51968479156494\" rightMargin=\"28.34645652770996\" topMargin=\"14.17322826385498\" bottomMargin=\"14.17322826385498\" paperOrientation=\"1\" headerFOffset=\"20.0\" footerFOffset=\"20.0\" /></properties>\n<elements resolver=\"hvl-default\">\n"
    ++ String.intercalate "\n" (st.elements.map renderElem)
    ++ "\n</elements>\n<styles><style name=\"default\" description=\"Geçerli\" family=\"Dialog\" size=\"12\" bold=\"false\" italic=\"false\" foreground=\"-13421773\" FONT_ATTRIBUTE_KEY=\"javax.swing.plaf.FontUIResource[family=Dialog,name=Dialog,style=plain,size=12]\" /><style name=\"hvl-default\" family=\"Times New Roman\" size=\"12\" description=\"Gövde\" /></styles>\n</template>"

end JsUdfGenerator

/-! ## The parser's error behaviour (`src/js/docx-parser.js`) -/

namespace DocxParser

/-- The single message of the error rethrown by `parse`'s catch-all
(line 43). -/
def parseErrorMessage : String :=
  "Failed to parse DOCX file. Make sure it is a valid Word document."

/-- Outcome of `parse` as seen by its caller: a parsed document, or one
thrown `Error` carrying a message. -/
inductive ParseResult where
  | ok (doc : Document)
  | err (message : String)
  deriving Repr, DecidableEq

/-- The `try`/`catch` wrapper of `parse` (lines 19–45).  The `try` body
(zip loading, relationship/media extraction, body-XML DOM parsing — all
via external collaborators) is abstracted as its outcome `pipeline`:
either a document or the message of whatever error was thrown inside.
The `catch` block discards that error and throws a single generic `Error`
with the fixed message `parseErrorMessage`. -/
def parse (pipeline : Except String Document) : ParseResult :=
  match pipeline with
  | .ok d => .ok d
  | .error _ => .err parseErrorMessage

end DocxParser

/-! ## Offset bookkeeping predicates -/

/-- The `(startOffset, length)` pairs of a leaf list, in order. -/
def rangesOf (ls : List Leaf) : List (Nat × Nat) := ls.map Leaf.range

/-- `endAfter o rs = some e` iff the ranges `rs` tile the half-open interval
`[o, e)` contiguously and in order — no gaps, no overlaps. -/
def endAfter : Nat → List (Nat × Nat) → Option Nat
  | o, [] => some o
  | o, (s, l) :: rest => if s = o then endAfter (o + l) rest else none

/-- `boundedOrdered lo rs hi`: the ranges `rs` are in nondecreasing order,
pairwise disjoint, and contained in `[lo, hi)` (gaps allowed). -/
def boundedOrdered : Nat → List (Nat × Nat) → Nat → Prop
  | lo, [], hi => lo ≤ hi
  | lo, (s, l) :: rest, hi => lo ≤ s ∧ boundedOrdered (s + l) rest hi

theorem endAfter_append (o : Nat) (l1 l2 : List (Nat × Nat)) :
    endAfter o (l1 ++ l2) = (endAfter o l1).bind (fun m => endAfter m l2) := by
  induction l1 generalizing o with
  | nil => simp [endAfter]
  | cons hd tl ih =>
    obtain ⟨s, l⟩ := hd
    simp only [List.cons_append, endAfter]
    split <;> simp [ih]

theorem endAfter_sum (o : Nat) (l : List (Nat × Nat)) (e : Nat)
    (h : endAfter o l = some e) : e = o + (l.map Prod.snd).sum := by
  induction l generalizing o with
  | nil => simp [endAfter] at h; simp [h]
  | cons hd tl ih =>
    obtain ⟨s, len⟩ := hd
    simp only [endAfter] at h
    split at h
    · next hs => subst hs; have := ih _ h; simp [this]; omega
    · exact absurd h (by simp)

theorem boundedOrdered_append {lo m hi : Nat} {l1 l2 : List (Nat × Nat)}
    (h1 : boundedOrdered lo l1 m) (h2 : boundedOrdered m l2 hi) :
    boundedOrdered lo (l1 ++ l2) hi := by
  induction l1 generalizing lo with
  | nil =>
    simp only [boundedOrdered] at h1
    simp only [List.nil_append]
    induction l2 generalizing m with
    | nil => simp_all [boundedOrdered]; omega
    | cons hd tl ih2 =>
      obtain ⟨s, len⟩ := hd
      simp only [boundedOrdered] at h2 ⊢
      exact ⟨by omega, h2.2⟩
  | cons hd tl ih =>
    obtain ⟨s, len⟩ := hd
    simp only [boundedOrdered, List.cons_append] at h1 ⊢
    exact ⟨h1.1, ih h1.2⟩

theorem boundedOrdered_mono_hi {lo hi hi' : Nat} {l : List (Nat × Nat)}
    (h : boundedOrdered lo l hi) (hh : hi ≤ hi') : boundedOrdered lo l hi' := by
  induction l generalizing lo with
  | nil => simp only [boundedOrdered] at h ⊢; omega
  | cons hd tl ih =>
    obtain ⟨s, len⟩ := hd
    simp only [boundedOrdered] at h ⊢
    exact ⟨h.1, ih h.2⟩

theorem boundedOrdered_mono_lo {lo lo' hi : Nat} {l : List (Nat × Nat)}
    (h : boundedOrdered lo l hi) (hl : lo' ≤ lo) : boundedOrdered lo' l hi := by
  cases l with
  | nil => simp only [boundedOrdered] at h ⊢; omega
  | cons hd tl =>
    obtain ⟨s, len⟩ := hd
    simp only [boundedOrdered] at h ⊢
    exact ⟨by omega, h.2⟩

theorem boundedOrdered_mem {lo hi : Nat} {l : List (Nat × Nat)}
    (h : boundedOrdered lo l hi) {r : Nat × Nat} (hr : r ∈ l) :
    lo ≤ r.1 ∧ r.1 + r.2 ≤ hi := by
  induction l generalizing lo with
  | nil => simp at hr
  | cons hd tl ih =>
    obtain ⟨s, len⟩ := hd
    simp only [boundedOrdered] at h
    rcases List.mem_cons.mp hr with h1 | h1
    · subst h1
      refine ⟨h.1, ?_⟩
      have : ∀ lo' l' hi', boundedOrdered lo' l' hi' → lo' ≤ hi' := by
        intro lo' l' hi' hb
        induction l' generalizing lo' with
        | nil => simpa [boundedOrdered] using hb
        | cons hd' tl' ih' =>
          obtain ⟨s', len'⟩ := hd'
          simp only [boundedOrdered] at hb
          have := ih' _ hb.2
          omega
      exact this _ _ _ h.2
    · have := ih h.2 h1
      exact ⟨by omega, this.2⟩

theorem endAfter_boundedOrdered {o e : Nat} {l : List (Nat × Nat)}
    (h : endAfter o l = some e) : boundedOrdered o l e := by
  induction l generalizing o with
  | nil => simp only [endAfter, Option.some.injEq] at h; simp [boundedOrdered, h]
  | cons hd tl ih =>
    obtain ⟨s, len⟩ := hd
    simp only [endAfter] at h
    split at h
    · next hs => subst hs; exact ⟨le_refl _, ih h⟩
    · exact absurd h (by simp)

/-! ## Run / document predicates used as claim hypotheses -/

/-- `run.type === 'break'`. -/
def Run.isBrk : Run → Bool
  | .brk => true
  | _ => false

/-- `run.type === 'pageBreak'`. -/
def Run.isPageBreak : Run → Bool
  | .pageBreak => true
  | _ => false

/-- `run.type === 'footnoteRef'`. -/
def Run.isFootnoteRef : Run → Bool
  | .footnoteRef _ _ => true
  | _ => false

/-- No footnote-reference run in a paragraph. -/
def Paragraph.noFn (p : Paragraph) : Bool :=
  p.runs.all (fun r => !r.isFootnoteRef)

/-- No footnote-reference run in a cell. -/
def Cell.noFn (c : Cell) : Bool := c.paragraphs.all Paragraph.noFn

/-- No footnote-reference run in a table. -/
def Table.noFn (t : Table) : Bool := t.rows.all (fun r => r.cells.all Cell.noFn)

/-- No footnote-reference run in a block. -/
def DocBlock.noFn : DocBlock → Bool
  | .paragraph p => p.noFn
  | .table t => t.noFn

/-- No footnote-reference run anywhere in the document. -/
def Document.noFn (d : Document) : Bool := d.elements.all DocBlock.noFn

/-- Gap-freedom hypothesis on a body paragraph: no line-break run (whose
newline is covered by no element) and no footnote-reference run (whose
eventual flush emits uncovered newlines). -/
def Paragraph.gapFree (p : Paragraph) : Bool :=
  p.runs.all (fun r => !r.isBrk && !r.isFootnoteRef)

/-- Gap-freedom hypothesis on a cell: at most one paragraph (the newline
between cell paragraphs is covered by no element) and no footnote
reference. -/
def Cell.gapFree (c : Cell) : Bool :=
  decide (c.paragraphs.length ≤ 1) && c.paragraphs.all Paragraph.noFn

/-- Gap-freedom hypothesis on a table. -/
def Table.gapFree (t : Table) : Bool :=
  t.rows.all (fun r => r.cells.all Cell.gapFree)

/-- Gap-freedom hypothesis on a block. -/
def DocBlock.gapFree : DocBlock → Bool
  | .paragraph p => p.gapFree
  | .table t => t.gapFree

/-- Gap-freedom hypothesis on a document. -/
def Document.gapFree (d : Document) : Bool := d.elements.all DocBlock.gapFree

/-! ## Derived definitions used by the theorems -/

/-- Leaves of a list of in-cell paragraph strings, in order. -/
def parasLeaves (ps : List ParaOut) : List Leaf :=
  (ps.map ParaOut.children).flatten

/-- Leaves of a list of cell strings, in order. -/
def cellsLeaves (cs : List CellOut) : List Leaf :=
  (cs.map CellOut.leaves).flatten

/-- Leaves of a list of row cell-lists, in order. -/
def rowsLeaves (rs : List (List CellOut)) : List Leaf :=
  (rs.map cellsLeaves).flatten

/-- Text appended to the buffer for one flushed footnote: the uncovered
newline, the superscripted `number. ` part, then the body text. -/
def UdfGenerator.footnoteParaText (fn : UdfGenerator.Footnote) : String :=
  "\n" ++ (fn.number ++ ". ") ++ fn.text

/-- Text appended for all flushed footnotes, in collection order. -/
def UdfGenerator.footnotesText (fns : List UdfGenerator.Footnote) : String :=
  String.join (fns.map UdfGenerator.footnoteParaText)

/-- The whole text appended by one `appendFootnotesSection` call:
a newline, the separator rule, then one `footnoteParaText` per footnote. -/
def UdfGenerator.sectionText (fns : List UdfGenerator.Footnote) : String :=
  "\n" ++ separatorLine ++ UdfGenerator.footnotesText fns

/-- Closed form of the footnote paragraphs emitted by
`appendFootnotesSection` when the buffer cursor stands at `o`: one
paragraph per footnote, holding a superscripted `number. ` content element
at `o + 1` and a regular-weight body content element directly after it
(the newline at `o` itself is covered by no element). -/
def UdfGenerator.footnoteElems (o : Nat) : List UdfGenerator.Footnote → List Elem
  | [] => []
  | fn :: rest =>
    Elem.paragraph defaultParaAttrs
      [Leaf.content (o + 1) (fn.number ++ ". ").length superscriptAttrs,
       Leaf.content (o + 1 + (fn.number ++ ". ").length) fn.text.length footnoteTextAttrs]
    :: UdfGenerator.footnoteElems (o + (UdfGenerator.footnoteParaText fn).length) rest

/-- Closed form of all elements emitted by one `appendFootnotesSection`
call from cursor `o`: a blank-line paragraph covering the newline at `o`,
a separator-line paragraph covering the rule, then the footnote
paragraphs. -/
def UdfGenerator.sectionElems (o : Nat) (fns : List UdfGenerator.Footnote) : List Elem :=
  Elem.paragraph defaultParaAttrs [Leaf.content o 1 defaultContentAttrs]
  :: Elem.paragraph defaultParaAttrs
       [Leaf.content (o + 1) separatorLine.length footnoteTextAttrs]
  :: UdfGenerator.footnoteElems (o + 1 + separatorLine.length) fns

/-- Forget the footnote component of the footnote-aware generator's state,
leaving the fields the `src/js/udf-generator.js` generator also has. -/
def eraseFn (st : UdfGenerator.GenState) : JsUdfGenerator.GenState :=
  { content := st.content, elements := st.elements, currentOffset := st.currentOffset }

/-! ## Concrete sample values used to evaluate the definitions -/

/-- A minimal plain text run. -/
def sampleTextRun : TextRun :=
  { text := "ab", bold := false, italic := false, underline := false,
    strike := false, fontFamily := none, fontSize := none, color := none }

/-- A one-run left-aligned paragraph. -/
def samplePara : Paragraph := { alignment := "left", runs := [Run.text sampleTextRun] }

/-- A document holding one plain paragraph. -/
def sampleTextDoc : Document := ⟨[DocBlock.paragraph samplePara]⟩

/-- A document whose only paragraph holds a single line-break run. -/
def sampleBrkDoc : Document :=
  ⟨[DocBlock.paragraph { alignment := "left", runs := [Run.brk] }]⟩

/-- A generator state with one pending footnote. -/
def sampleFnState : UdfGenerator.GenState :=
  { content := "x", elements := [], currentOffset := 1,
    collectedFootnotes := [{ number := "1", text := "note" }] }

/-- A cell holding one plain paragraph. -/
def sampleCell : Cell := { paragraphs := [samplePara] }

/-- A document whose only paragraph holds a single footnote reference. -/
def sampleFnDoc : Document :=
  ⟨[DocBlock.paragraph { alignment := "left", runs := [Run.footnoteRef "1" "note"] }]⟩

/-! ## String.join helpers -/

theorem stringJoin_foldl (xs : List String) : ∀ (acc : String),
    List.foldl (fun r s => r ++ s) acc xs = acc ++ String.join xs := by
  induction xs with
  | nil => intro acc; simp [String.join]
  | cons x xs ih =>
    intro acc
    have hx : String.join (x :: xs) = x ++ String.join xs := by
      show List.foldl (fun r s => r ++ s) "" (x :: xs) = _
      rw [List.foldl_cons, ih]
      simp
    rw [hx]
    show List.foldl (fun r s => r ++ s) (acc ++ x) xs = _
    rw [ih]
    simp [String.append_assoc]

theorem stringJoin_cons (x : String) (xs : List String) :
    String.join (x :: xs) = x ++ String.join xs := by
  show List.foldl (fun r s => r ++ s) "" (x :: xs) = _
  rw [List.foldl_cons, stringJoin_foldl]
  simp

theorem stringJoin_append (xs ys : List String) :
    String.join (xs ++ ys) = String.join xs ++ String.join ys := by
  show List.foldl (fun r s => r ++ s) "" (xs ++ ys) = _
  rw [List.foldl_append, stringJoin_foldl, stringJoin_foldl]
  simp

theorem allHead {α : Type} {p : α → Bool} {r : α} {rs : List α}
    (h : (r :: rs).all p = true) : p r = true := by
  rw [List.all_cons, Bool.and_eq_true] at h
  exact h.1

theorem allTail {α : Type} {p : α → Bool} {r : α} {rs : List α}
    (h : (r :: rs).all p = true) : rs.all p = true := by
  rw [List.all_cons, Bool.and_eq_true] at h
  exact h.2

theorem lenTab : ("\t" : String).length = 1 := rfl

theorem lenNewline : ("\n" : String).length = 1 := rfl

theorem lenObjRepl : ("￼" : String).length = 1 := rfl

theorem lenZwsp : ("​" : String).length = 1 := rfl

theorem lenSpace : (" " : String).length = 1 := rfl

/-! ## Structural lemmas about the `part_000` generator

Each lemma characterises one loop of the generator in relational form:
the state is only ever extended (content appended, elements appended in
place, offset advanced in step with the appended text), and the leaves
appended during a loop tile the traversed offset interval. -/

theorem UdfGenerator.processCellRuns_elements (runs : List Run)
    (st : UdfGenerator.GenState) (acc : List Leaf) :
    (UdfGenerator.processCellRuns st acc runs).1.elements = st.elements := by
  induction runs generalizing st acc with
  | nil => rfl
  | cons r rest ih =>
    cases r with
    | text t => simp only [UdfGenerator.processCellRuns]; exact ih _ _
    | tab => simp only [UdfGenerator.processCellRuns]; exact ih _ _
    | image data w h =>
      simp only [UdfGenerator.processCellRuns]
      split
      · exact ih _ _
      · exact ih _ _
    | brk => simp only [UdfGenerator.processCellRuns]; exact ih _ _
    | pageBreak => simp only [UdfGenerator.processCellRuns]; exact ih _ _
    | footnoteRef id content => simp only [UdfGenerator.processCellRuns]; exact ih _ _

theorem UdfGenerator.processCellRuns_sync (runs : List Run)
    (st : UdfGenerator.GenState) (acc : List Leaf) :
    (UdfGenerator.processCellRuns st acc runs).1.content.length + st.currentOffset
      = st.content.length + (UdfGenerator.processCellRuns st acc runs).1.currentOffset := by
  induction runs generalizing st acc with
  | nil => rfl
  | cons r rest ih =>
    cases r with
    | text t =>
      simp only [UdfGenerator.processCellRuns]
      have h := ih { st with content := st.content ++ t.text, currentOffset := st.currentOffset + t.text.length } (acc ++ [Leaf.content st.currentOffset t.text.length (UdfGenerator.buildContentAttrs t)])
      simp only [String.length_append] at h
      omega
    | tab =>
      simp only [UdfGenerator.processCellRuns]
      have h := ih { st with content := st.content ++ "\t", currentOffset := st.currentOffset + 1 } (acc ++ [Leaf.tab st.currentOffset])
      simp only [String.length_append, lenTab] at h
      omega
    | image data w hh =>
      simp only [UdfGenerator.processCellRuns]
      split
      · have h := ih { st with content := st.content ++ "￼", currentOffset := st.currentOffset + 1 } (acc ++ [Leaf.image st.currentOffset (data.getD "") w hh])
        simp only [String.length_append, lenObjRepl] at h
        omega
      · exact ih _ _
    | brk => simp only [UdfGenerator.processCellRuns]; exact ih _ _
    | pageBreak => simp only [UdfGenerator.processCellRuns]; exact ih _ _
    | footnoteRef id content =>
      simp only [UdfGenerator.processCellRuns]
      have h := ih { st with content := st.content ++ id, currentOffset := st.currentOffset + id.length, collectedFootnotes := st.collectedFootnotes ++ [⟨id, content⟩] } (acc ++ [Leaf.content st.currentOffset id.length superscriptAttrs])
      simp only [String.length_append] at h
      omega

theorem UdfGenerator.processCellRuns_leaves (runs : List Run)
    (st : UdfGenerator.GenState) (acc : List Leaf) :
    ∃ nl, (UdfGenerator.processCellRuns st acc runs).2 = acc ++ nl ∧
      endAfter st.currentOffset (rangesOf nl)
        = some (UdfGenerator.processCellRuns st acc runs).1.currentOffset := by
  induction runs generalizing st acc with
  | nil => exact ⟨[], by simp [UdfGenerator.processCellRuns, rangesOf, endAfter]⟩
  | cons r rest ih =>
    cases r with
    | text t =>
      simp only [UdfGenerator.processCellRuns]
      obtain ⟨nl, h1, h2⟩ := ih { st with content := st.content ++ t.text, currentOffset := st.currentOffset + t.text.length } (acc ++ [Leaf.content st.currentOffset t.text.length (UdfGenerator.buildContentAttrs t)])
      refine ⟨Leaf.content st.currentOffset t.text.length (UdfGenerator.buildContentAttrs t) :: nl, by simpa using h1, ?_⟩
      simpa [rangesOf, endAfter, Leaf.range] using h2
    | tab =>
      simp only [UdfGenerator.processCellRuns]
      obtain ⟨nl, h1, h2⟩ := ih { st with content := st.content ++ "\t", currentOffset := st.currentOffset + 1 } (acc ++ [Leaf.tab st.currentOffset])
      refine ⟨Leaf.tab st.currentOffset :: nl, by simpa using h1, ?_⟩
      simpa [rangesOf, endAfter, Leaf.range] using h2
    | image data w hh =>
      simp only [UdfGenerator.processCellRuns]
      split
      · obtain ⟨nl, h1, h2⟩ := ih { st with content := st.content ++ "￼", currentOffset := st.currentOffset + 1 } (acc ++ [Leaf.image st.currentOffset (data.getD "") w hh])
        refine ⟨Leaf.image st.currentOffset (data.getD "") w hh :: nl, by simpa using h1, ?_⟩
        simpa [rangesOf, endAfter, Leaf.range] using h2
      · exact ih _ _
    | brk => simp only [UdfGenerator.processCellRuns]; exact ih _ _
    | pageBreak => simp only [UdfGenerator.processCellRuns]; exact ih _ _
    | footnoteRef id content =>
      simp only [UdfGenerator.processCellRuns]
      obtain ⟨nl, h1, h2⟩ := ih { st with content := st.content ++ id, currentOffset := st.currentOffset + id.length, collectedFootnotes := st.collectedFootnotes ++ [⟨id, content⟩] } (acc ++ [Leaf.content st.currentOffset id.length superscriptAttrs])
      refine ⟨Leaf.content st.currentOffset id.length superscriptAttrs :: nl, by simpa using h1, ?_⟩
      simpa [rangesOf, endAfter, Leaf.range] using h2

theorem UdfGenerator.processCellRuns_noFn (runs : List Run)
    (st : UdfGenerator.GenState) (acc : List Leaf)
    (h : runs.all (fun r => !r.isFootnoteRef) = true) :
    (UdfGenerator.processCellRuns st acc runs).1.collectedFootnotes
      = st.collectedFootnotes := by
  induction runs generalizing st acc with
  | nil => rfl
  | cons r rest ih =>
    cases r with
    | text t => simp only [UdfGenerator.processCellRuns]; exact ih _ _ (allTail h)
    | tab => simp only [UdfGenerator.processCellRuns]; exact ih _ _ (allTail h)
    | image data w hh =>
      simp only [UdfGenerator.processCellRuns]
      split
      · exact ih _ _ (allTail h)
      · exact ih _ _ (allTail h)
    | brk => simp only [UdfGenerator.processCellRuns]; exact ih _ _ (allTail h)
    | pageBreak => simp only [UdfGenerator.processCellRuns]; exact ih _ _ (allTail h)
    | footnoteRef id content =>
      have hh := allHead h
      simp [Run.isFootnoteRef] at hh

theorem boundedOrdered_le {lo hi : Nat} {l : List (Nat × Nat)}
    (h : boundedOrdered lo l hi) : lo ≤ hi := by
  induction l generalizing lo with
  | nil => simpa [boundedOrdered] using h
  | cons hd tl ih =>
    obtain ⟨s, len⟩ := hd
    simp only [boundedOrdered] at h
    have := ih h.2
    omega

theorem rangesOf_append (a b : List Leaf) :
    rangesOf (a ++ b) = rangesOf a ++ rangesOf b := by
  simp [rangesOf]

theorem elemsLeaves_append (es fs : List Elem) :
    elemsLeaves (es ++ fs) = elemsLeaves es ++ elemsLeaves fs := by
  simp [elemsLeaves]

theorem leafRanges_append (es fs : List Elem) :
    leafRanges (es ++ fs) = leafRanges es ++ leafRanges fs := by
  simp [leafRanges, elemsLeaves, rangesOf]

theorem leafRanges_paragraph_cons (attrs : String) (ch : List Leaf) (es : List Elem) :
    leafRanges (Elem.paragraph attrs ch :: es) = rangesOf ch ++ leafRanges es := by
  simp [leafRanges, elemsLeaves, Elem.leaves, rangesOf]


theorem UdfGenerator.footnoteParaText_length (fn : UdfGenerator.Footnote) :
    (UdfGenerator.footnoteParaText fn).length
      = 1 + (fn.number ++ ". ").length + fn.text.length := by
  simp only [UdfGenerator.footnoteParaText, String.length_append, lenNewline]

theorem UdfGenerator.footnotesText_cons (fn : UdfGenerator.Footnote)
    (rest : List UdfGenerator.Footnote) :
    UdfGenerator.footnotesText (fn :: rest)
      = UdfGenerator.footnoteParaText fn ++ UdfGenerator.footnotesText rest := by
  simp [UdfGenerator.footnotesText, stringJoin_cons]

theorem UdfGenerator.appendFootnotesSection_spec (st : UdfGenerator.GenState) :
    UdfGenerator.appendFootnotesSection st =
      { st with
        content := st.content ++ UdfGenerator.sectionText st.collectedFootnotes,
        elements := st.elements
          ++ UdfGenerator.sectionElems st.currentOffset st.collectedFootnotes,
        currentOffset := st.currentOffset
          + (UdfGenerator.sectionText st.collectedFootnotes).length } := by
  have aux : ∀ (fns : List UdfGenerator.Footnote) (s : UdfGenerator.GenState),
      List.foldl (fun st fn =>
        let st := { st with content := st.content ++ "\n",
                            currentOffset := st.currentOffset + 1 }
        let numPart := fn.number ++ ". "
        let e1 := Leaf.content st.currentOffset numPart.length superscriptAttrs
        let st := { st with content := st.content ++ numPart,
                            currentOffset := st.currentOffset + numPart.length }
        let e2 := Leaf.content st.currentOffset fn.text.length footnoteTextAttrs
        let st := { st with content := st.content ++ fn.text,
                            currentOffset := st.currentOffset + fn.text.length }
        { st with elements := st.elements ++ [Elem.paragraph defaultParaAttrs [e1, e2]] }) s fns
      = { s with
          content := s.content ++ UdfGenerator.footnotesText fns,
          elements := s.elements ++ UdfGenerator.footnoteElems s.currentOffset fns,
          currentOffset := s.currentOffset + (UdfGenerator.footnotesText fns).length } := by
    intro fns
    induction fns with
    | nil =>
      intro s
      simp [UdfGenerator.footnotesText, UdfGenerator.footnoteElems, String.join]
    | cons fn rest ih =>
      intro s
      rw [List.foldl_cons, ih]
      simp only [UdfGenerator.footnotesText_cons, UdfGenerator.footnoteElems,
        UdfGenerator.footnoteParaText, String.length_append, lenNewline,
        String.append_assoc, List.append_assoc, List.singleton_append,
        Nat.add_assoc]
  show (st.collectedFootnotes.foldl _ _) = _
  rw [aux]
  simp only [UdfGenerator.sectionText, UdfGenerator.sectionElems,
    String.length_append, String.append_assoc, List.append_assoc,
    List.singleton_append, List.cons_append, List.nil_append, lenNewline,
    Nat.add_assoc]

theorem parasLeaves_cons (p : ParaOut) (ps : List ParaOut) :
    parasLeaves (p :: ps) = p.children ++ parasLeaves ps := by
  simp [parasLeaves]

theorem UdfGenerator.processCellParagraphs_elements (ps : List Paragraph)
    (st : UdfGenerator.GenState) :
    (UdfGenerator.processCellParagraphs st ps).1.elements = st.elements := by
  induction ps generalizing st with
  | nil => rfl
  | cons p rest ih =>
    simp only [UdfGenerator.processCellParagraphs]
    rw [ih]
    split <;> split <;> simp [UdfGenerator.processCellRuns_elements]

theorem UdfGenerator.processCellParagraphs_sync (ps : List Paragraph)
    (st : UdfGenerator.GenState) :
    (UdfGenerator.processCellParagraphs st ps).1.content.length + st.currentOffset
      = st.content.length + (UdfGenerator.processCellParagraphs st ps).1.currentOffset := by
  induction ps generalizing st with
  | nil => rfl
  | cons p rest ih =>
    simp only [UdfGenerator.processCellParagraphs]
    have hsy := UdfGenerator.processCellRuns_sync p.runs st []
    split
    · next hrest =>
      split
      · next hemp =>
        have h := ih { (UdfGenerator.processCellRuns st [] p.runs).1 with content := (UdfGenerator.processCellRuns st [] p.runs).1.content ++ " ", currentOffset := (UdfGenerator.processCellRuns st [] p.runs).1.currentOffset + 1 }
        simp only [String.length_append, lenSpace] at h ⊢
        omega
      · have h := ih (UdfGenerator.processCellRuns st [] p.runs).1
        omega
    · next hrest =>
      split
      · next hemp =>
        have h := ih { (UdfGenerator.processCellRuns st [] p.runs).1 with content := (UdfGenerator.processCellRuns st [] p.runs).1.content ++ " " ++ "\n", currentOffset := (UdfGenerator.processCellRuns st [] p.runs).1.currentOffset + 1 + 1 }
        simp only [String.length_append, lenSpace, lenNewline] at h ⊢
        omega
      · have h := ih { (UdfGenerator.processCellRuns st [] p.runs).1 with content := (UdfGenerator.processCellRuns st [] p.runs).1.content ++ "\n", currentOffset := (UdfGenerator.processCellRuns st [] p.runs).1.currentOffset + 1 }
        simp only [String.length_append, lenNewline] at h ⊢
        omega

theorem UdfGenerator.processCellParagraphs_noFn (ps : List Paragraph)
    (st : UdfGenerator.GenState) (h : ps.all Paragraph.noFn = true) :
    (UdfGenerator.processCellParagraphs st ps).1.collectedFootnotes
      = st.collectedFootnotes := by
  induction ps generalizing st with
  | nil => rfl
  | cons p rest ih =>
    simp only [UdfGenerator.processCellParagraphs]
    have hp : Paragraph.noFn p = true := allHead h
    have hcr := UdfGenerator.processCellRuns_noFn p.runs st [] hp
    split
    · next hrest =>
      split
      · next hemp => rw [ih _ (allTail h)]; simpa using hcr
      · rw [ih _ (allTail h)]; exact hcr
    · next hrest =>
      split
      · next hemp => rw [ih _ (allTail h)]; simpa using hcr
      · rw [ih _ (allTail h)]; simpa using hcr

theorem UdfGenerator.processCellParagraphs_bound (ps : List Paragraph)
    (st : UdfGenerator.GenState) :
    boundedOrdered st.currentOffset
      (rangesOf (parasLeaves (UdfGenerator.processCellParagraphs st ps).2))
      (UdfGenerator.processCellParagraphs st ps).1.currentOffset := by
  induction ps generalizing st with
  | nil =>
    simp [UdfGenerator.processCellParagraphs, parasLeaves, rangesOf, boundedOrdered]
  | cons p rest ih =>
    simp only [UdfGenerator.processCellParagraphs, parasLeaves_cons, rangesOf_append]
    obtain ⟨nl, hnl, hend⟩ := UdfGenerator.processCellRuns_leaves p.runs st []
    simp only [List.nil_append] at hnl
    by_cases hemp : (UdfGenerator.processCellRuns st [] p.runs).2.isEmpty
    · have hnil : nl = [] := by rw [hnl] at hemp; simpa [List.isEmpty_iff] using hemp
      have hoff : (UdfGenerator.processCellRuns st [] p.runs).1.currentOffset
          = st.currentOffset := by
        rw [hnil] at hend
        simpa [rangesOf, endAfter] using hend.symm
      by_cases hrest : rest.isEmpty
      · simp only [hemp, hrest, if_true, if_pos]
        have h2 := ih { (UdfGenerator.processCellRuns st [] p.runs).1 with content := (UdfGenerator.processCellRuns st [] p.runs).1.content ++ " ", currentOffset := (UdfGenerator.processCellRuns st [] p.runs).1.currentOffset + 1 }
        simp only at h2 ⊢
        refine boundedOrdered_append (m := (UdfGenerator.processCellRuns st [] p.runs).1.currentOffset + 1) ?_ ?_
        · simp [rangesOf, boundedOrdered, Leaf.range, hoff]
        · simpa [hoff] using h2
      · simp only [hemp, hrest, if_true, if_neg, if_false]
        have h2 := ih { (UdfGenerator.processCellRuns st [] p.runs).1 with content := (UdfGenerator.processCellRuns st [] p.runs).1.content ++ " " ++ "\n", currentOffset := (UdfGenerator.processCellRuns st [] p.runs).1.currentOffset + 1 + 1 }
        simp only at h2 ⊢
        refine boundedOrdered_append (m := (UdfGenerator.processCellRuns st [] p.runs).1.currentOffset + 1) ?_ ?_
        · simp [rangesOf, boundedOrdered, Leaf.range, hoff]
        · exact boundedOrdered_mono_lo (by simpa [hoff] using h2) (by omega)
    · by_cases hrest : rest.isEmpty
      · simp only [hemp, hrest, Bool.false_eq_true, if_true, if_false]
        have h2 := ih (UdfGenerator.processCellRuns st [] p.runs).1
        refine boundedOrdered_append (m := (UdfGenerator.processCellRuns st [] p.runs).1.currentOffset) ?_ ?_
        · rw [hnl]
          exact endAfter_boundedOrdered hend
        · exact h2
      · simp only [hemp, hrest, Bool.false_eq_true, if_false]
        have h2 := ih { (UdfGenerator.processCellRuns st [] p.runs).1 with content := (UdfGenerator.processCellRuns st [] p.runs).1.content ++ "\n", currentOffset := (UdfGenerator.processCellRuns st [] p.runs).1.currentOffset + 1 }
        simp only at h2 ⊢
        refine boundedOrdered_append (m := (UdfGenerator.processCellRuns st [] p.runs).1.currentOffset) ?_ ?_
        · rw [hnl]
          exact endAfter_boundedOrdered hend
        · exact boundedOrdered_mono_lo h2 (by omega)

theorem UdfGenerator.processCellParagraphs_exact (ps : List Paragraph)
    (st : UdfGenerator.GenState) (h : ps.length ≤ 1) :
    endAfter st.currentOffset
      (rangesOf (parasLeaves (UdfGenerator.processCellParagraphs st ps).2))
      = some (UdfGenerator.processCellParagraphs st ps).1.currentOffset := by
  cases ps with
  | nil => simp [UdfGenerator.processCellParagraphs, parasLeaves, rangesOf, endAfter]
  | cons p rest =>
    cases rest with
    | cons q qs => simp at h
    | nil =>
      simp only [UdfGenerator.processCellParagraphs, parasLeaves_cons, rangesOf_append]
      obtain ⟨nl, hnl, hend⟩ := UdfGenerator.processCellRuns_leaves p.runs st []
      simp only [List.nil_append] at hnl
      by_cases hemp : (UdfGenerator.processCellRuns st [] p.runs).2.isEmpty
      · have hnil : nl = [] := by rw [hnl] at hemp; simpa [List.isEmpty_iff] using hemp
        have hoff : (UdfGenerator.processCellRuns st [] p.runs).1.currentOffset
            = st.currentOffset := by
          rw [hnil] at hend
          simpa [rangesOf, endAfter] using hend.symm
        simp [hemp, UdfGenerator.processCellParagraphs, parasLeaves, rangesOf,
          endAfter, Leaf.range, hoff]
      · simp only [hemp, Bool.false_eq_true, if_false, List.isEmpty_nil, if_true]
        rw [hnl]
        simp only [UdfGenerator.processCellParagraphs, parasLeaves, List.map_nil,
          List.flatten_nil, List.append_nil]
        simpa [rangesOf] using hend

theorem cellsLeaves_cons (a : String) (ps : List ParaOut) (cs : List CellOut) :
    cellsLeaves (⟨a, ps⟩ :: cs) = parasLeaves ps ++ cellsLeaves cs := by
  simp [cellsLeaves, CellOut.leaves, parasLeaves]

theorem rowsLeaves_cons (r : List CellOut) (rs : List (List CellOut)) :
    rowsLeaves (r :: rs) = cellsLeaves r ++ rowsLeaves rs := by
  simp [rowsLeaves]

theorem UdfGenerator.processTableCell_elements (cell : Cell)
    (st : UdfGenerator.GenState) :
    (UdfGenerator.processTableCell st cell).1.elements = st.elements := by
  simp only [UdfGenerator.processTableCell]
  split
  · simpa using UdfGenerator.processCellParagraphs_elements cell.paragraphs st
  · exact UdfGenerator.processCellParagraphs_elements cell.paragraphs st

theorem UdfGenerator.processTableCell_sync (cell : Cell)
    (st : UdfGenerator.GenState) :
    (UdfGenerator.processTableCell st cell).1.content.length + st.currentOffset
      = st.content.length + (UdfGenerator.processTableCell st cell).1.currentOffset := by
  simp only [UdfGenerator.processTableCell]
  have h := UdfGenerator.processCellParagraphs_sync cell.paragraphs st
  split
  · simp only [String.length_append, lenSpace]
    omega
  · exact h

theorem UdfGenerator.processTableCell_noFn (cell : Cell)
    (st : UdfGenerator.GenState) (h : Cell.noFn cell = true) :
    (UdfGenerator.processTableCell st cell).1.collectedFootnotes
      = st.collectedFootnotes := by
  simp only [UdfGenerator.processTableCell]
  have hp : cell.paragraphs.all Paragraph.noFn = true := h
  have hh := UdfGenerator.processCellParagraphs_noFn cell.paragraphs st hp
  split
  · simpa using hh
  · exact hh

theorem UdfGenerator.processTableCell_bound (cell : Cell)
    (st : UdfGenerator.GenState) :
    boundedOrdered st.currentOffset
      (rangesOf (parasLeaves (UdfGenerator.processTableCell st cell).2))
      (UdfGenerator.processTableCell st cell).1.currentOffset := by
  simp only [UdfGenerator.processTableCell]
  have h := UdfGenerator.processCellParagraphs_bound cell.paragraphs st
  have hle := boundedOrdered_le h
  split
  · simp only [parasLeaves, List.map_cons, List.map_nil, List.flatten_cons,
      List.flatten_nil, List.append_nil, rangesOf, Leaf.range, boundedOrdered]
    exact ⟨hle, le_refl _⟩
  · exact h

theorem UdfGenerator.processTableCell_exact (cell : Cell)
    (st : UdfGenerator.GenState) (h : cell.paragraphs.length ≤ 1) :
    endAfter st.currentOffset
      (rangesOf (parasLeaves (UdfGenerator.processTableCell st cell).2))
      = some (UdfGenerator.processTableCell st cell).1.currentOffset := by
  simp only [UdfGenerator.processTableCell]
  have hx := UdfGenerator.processCellParagraphs_exact cell.paragraphs st h
  split
  · next hemp =>
    have hnil : (UdfGenerator.processCellParagraphs st cell.paragraphs).2 = [] := by
      simpa [List.isEmpty_iff] using hemp
    rw [hnil] at hx
    have hoff : (UdfGenerator.processCellParagraphs st cell.paragraphs).1.currentOffset
        = st.currentOffset := by
      simpa [parasLeaves, rangesOf, endAfter] using hx.symm
    simp [parasLeaves, rangesOf, endAfter, Leaf.range, hoff]
  · exact hx

theorem UdfGenerator.processRowCells_elements (cs : List Cell)
    (st : UdfGenerator.GenState) :
    (UdfGenerator.processRowCells st cs).1.elements = st.elements := by
  induction cs generalizing st with
  | nil => rfl
  | cons c rest ih =>
    simp only [UdfGenerator.processRowCells]
    split
    · exact ih st
    · rw [ih]
      exact UdfGenerator.processTableCell_elements c st

theorem UdfGenerator.processRowCells_sync (cs : List Cell)
    (st : UdfGenerator.GenState) :
    (UdfGenerator.processRowCells st cs).1.content.length + st.currentOffset
      = st.content.length + (UdfGenerator.processRowCells st cs).1.currentOffset := by
  induction cs generalizing st with
  | nil => rfl
  | cons c rest ih =>
    simp only [UdfGenerator.processRowCells]
    split
    · exact ih st
    · have h1 := UdfGenerator.processTableCell_sync c st
      have h2 := ih (UdfGenerator.processTableCell st c).1
      dsimp only
      omega

theorem UdfGenerator.processRowCells_noFn (cs : List Cell)
    (st : UdfGenerator.GenState) (h : cs.all Cell.noFn = true) :
    (UdfGenerator.processRowCells st cs).1.collectedFootnotes
      = st.collectedFootnotes := by
  induction cs generalizing st with
  | nil => rfl
  | cons c rest ih =>
    simp only [UdfGenerator.processRowCells]
    split
    · exact ih st (allTail h)
    · rw [ih _ (allTail h)]
      exact UdfGenerator.processTableCell_noFn c st (allHead h)

theorem UdfGenerator.processRowCells_bound (cs : List Cell)
    (st : UdfGenerator.GenState) :
    boundedOrdered st.currentOffset
      (rangesOf (cellsLeaves (UdfGenerator.processRowCells st cs).2))
      (UdfGenerator.processRowCells st cs).1.currentOffset := by
  induction cs generalizing st with
  | nil => simp [UdfGenerator.processRowCells, cellsLeaves, rangesOf, boundedOrdered]
  | cons c rest ih =>
    simp only [UdfGenerator.processRowCells]
    split
    · exact ih st
    · simp only [cellsLeaves_cons, rangesOf_append]
      have h1 := UdfGenerator.processTableCell_bound c st
      have h2 := ih (UdfGenerator.processTableCell st c).1
      exact boundedOrdered_append h1 h2

theorem UdfGenerator.processRowCells_exact (cs : List Cell)
    (st : UdfGenerator.GenState) (h : cs.all Cell.gapFree = true) :
    endAfter st.currentOffset
      (rangesOf (cellsLeaves (UdfGenerator.processRowCells st cs).2))
      = some (UdfGenerator.processRowCells st cs).1.currentOffset := by
  induction cs generalizing st with
  | nil => simp [UdfGenerator.processRowCells, cellsLeaves, rangesOf, endAfter]
  | cons c rest ih =>
    simp only [UdfGenerator.processRowCells]
    split
    · exact ih st (allTail h)
    · simp only [cellsLeaves_cons, rangesOf_append, endAfter_append]
      have hg := allHead h
      simp only [Cell.gapFree, Bool.and_eq_true, decide_eq_true_eq] at hg
      have h1 := UdfGenerator.processTableCell_exact c st hg.1
      rw [h1]
      exact ih (UdfGenerator.processTableCell st c).1 (allTail h)

theorem UdfGenerator.processTableRows_elements (rs : List Row)
    (st : UdfGenerator.GenState) :
    (UdfGenerator.processTableRows st rs).1.elements = st.elements := by
  induction rs generalizing st with
  | nil => rfl
  | cons r rest ih =>
    simp only [UdfGenerator.processTableRows]
    rw [ih]
    exact UdfGenerator.processRowCells_elements r.cells st

theorem UdfGenerator.processTableRows_sync (rs : List Row)
    (st : UdfGenerator.GenState) :
    (UdfGenerator.processTableRows st rs).1.content.length + st.currentOffset
      = st.content.length + (UdfGenerator.processTableRows st rs).1.currentOffset := by
  induction rs generalizing st with
  | nil => rfl
  | cons r rest ih =>
    simp only [UdfGenerator.processTableRows]
    have h1 := UdfGenerator.processRowCells_sync r.cells st
    have h2 := ih (UdfGenerator.processRowCells st r.cells).1
    omega

theorem UdfGenerator.processTableRows_noFn (rs : List Row)
    (st : UdfGenerator.GenState) (h : rs.all (fun r => r.cells.all Cell.noFn) = true) :
    (UdfGenerator.processTableRows st rs).1.collectedFootnotes
      = st.collectedFootnotes := by
  induction rs generalizing st with
  | nil => rfl
  | cons r rest ih =>
    simp only [UdfGenerator.processTableRows]
    rw [ih _ (allTail h)]
    have hr : r.cells.all Cell.noFn = true := allHead (p := fun (r : Row) => r.cells.all Cell.noFn) h
    exact UdfGenerator.processRowCells_noFn r.cells st hr

theorem UdfGenerator.processTableRows_bound (rs : List Row)
    (st : UdfGenerator.GenState) :
    boundedOrdered st.currentOffset
      (rangesOf (rowsLeaves (UdfGenerator.processTableRows st rs).2))
      (UdfGenerator.processTableRows st rs).1.currentOffset := by
  induction rs generalizing st with
  | nil => simp [UdfGenerator.processTableRows, rowsLeaves, rangesOf, boundedOrdered]
  | cons r rest ih =>
    simp only [UdfGenerator.processTableRows, rowsLeaves_cons, rangesOf_append]
    have h1 := UdfGenerator.processRowCells_bound r.cells st
    have h2 := ih (UdfGenerator.processRowCells st r.cells).1
    exact boundedOrdered_append h1 h2

theorem UdfGenerator.processTableRows_exact (rs : List Row)
    (st : UdfGenerator.GenState)
    (h : rs.all (fun r => r.cells.all Cell.gapFree) = true) :
    endAfter st.currentOffset
      (rangesOf (rowsLeaves (UdfGenerator.processTableRows st rs).2))
      = some (UdfGenerator.processTableRows st rs).1.currentOffset := by
  induction rs generalizing st with
  | nil => simp [UdfGenerator.processTableRows, rowsLeaves, rangesOf, endAfter]
  | cons r rest ih =>
    simp only [UdfGenerator.processTableRows, rowsLeaves_cons, rangesOf_append,
      endAfter_append]
    have hr : r.cells.all Cell.gapFree = true := allHead (p := fun (r : Row) => r.cells.all Cell.gapFree) h
    rw [UdfGenerator.processRowCells_exact r.cells st hr]
    exact ih (UdfGenerator.processRowCells st r.cells).1 (allTail h)

theorem leafRanges_pageBreak_snoc (es : List Elem) :
    leafRanges (es ++ [Elem.pageBreak]) = leafRanges es := by
  simp [leafRanges_append, leafRanges, elemsLeaves, Elem.leaves, rangesOf]

theorem leafRanges_para_snoc (es : List Elem) (a : String) (ch : List Leaf) :
    leafRanges (es ++ [Elem.paragraph a ch]) = leafRanges es ++ rangesOf ch := by
  rw [leafRanges_append]
  simp [leafRanges, elemsLeaves, Elem.leaves, rangesOf]

theorem leafRanges_table_singleton (cc : Nat) (spans border : String)
    (rows : List (List CellOut)) :
    leafRanges [Elem.table cc spans border rows] = rangesOf (rowsLeaves rows) := by
  simp only [leafRanges, elemsLeaves, Elem.leaves, rowsLeaves, rangesOf,
    List.map_cons, List.map_nil, List.flatten_cons, List.flatten_nil,
    List.append_nil, List.map_flatten, List.map_map]
  rfl

theorem UdfGenerator.processTable_elements (t : Table) (st : UdfGenerator.GenState) :
    (UdfGenerator.processTable st t).elements = st.elements
      ++ [Elem.table (UdfGenerator.columnCount t) (UdfGenerator.columnSpans t) t.border
            (UdfGenerator.processTableRows st t.rows).2] := by
  simp only [UdfGenerator.processTable]
  rw [UdfGenerator.processTableRows_elements]

theorem UdfGenerator.processTable_sync (t : Table) (st : UdfGenerator.GenState) :
    (UdfGenerator.processTable st t).content.length + st.currentOffset
      = st.content.length + (UdfGenerator.processTable st t).currentOffset := by
  simp only [UdfGenerator.processTable]
  exact UdfGenerator.processTableRows_sync t.rows st

theorem UdfGenerator.processTable_noFn (t : Table) (st : UdfGenerator.GenState)
    (h : Table.noFn t = true) :
    (UdfGenerator.processTable st t).collectedFootnotes = st.collectedFootnotes := by
  simp only [UdfGenerator.processTable]
  exact UdfGenerator.processTableRows_noFn t.rows st h

theorem UdfGenerator.processTable_bound (t : Table) (st : UdfGenerator.GenState)
    (hsync : st.content.length = st.currentOffset)
    (hbase : boundedOrdered 0 (leafRanges st.elements) st.content.length) :
    (UdfGenerator.processTable st t).content.length
        = (UdfGenerator.processTable st t).currentOffset ∧
      boundedOrdered 0 (leafRanges (UdfGenerator.processTable st t).elements)
        (UdfGenerator.processTable st t).content.length := by
  have hs := UdfGenerator.processTableRows_sync t.rows st
  have hb := UdfGenerator.processTableRows_bound t.rows st
  constructor
  · simp only [UdfGenerator.processTable]
    omega
  · rw [UdfGenerator.processTable_elements, leafRanges_append,
      leafRanges_table_singleton]
    have hsy2 : (UdfGenerator.processTable st t).content.length
        = (UdfGenerator.processTableRows st t.rows).1.content.length := rfl
    rw [hsy2]
    refine boundedOrdered_append (m := st.currentOffset) ?_ ?_
    · rw [hsync] at hbase
      exact boundedOrdered_mono_hi hbase (by omega)
    · have : (UdfGenerator.processTableRows st t.rows).1.content.length
          = (UdfGenerator.processTableRows st t.rows).1.currentOffset := by omega
      rw [this]
      exact hb

theorem UdfGenerator.processTable_exact (t : Table) (st : UdfGenerator.GenState)
    (hgap : Table.gapFree t = true)
    (hsync : st.content.length = st.currentOffset)
    (hbase : endAfter 0 (leafRanges st.elements) = some st.content.length) :
    (UdfGenerator.processTable st t).content.length
        = (UdfGenerator.processTable st t).currentOffset ∧
      endAfter 0 (leafRanges (UdfGenerator.processTable st t).elements)
        = some (UdfGenerator.processTable st t).content.length := by
  have hs := UdfGenerator.processTableRows_sync t.rows st
  have hx := UdfGenerator.processTableRows_exact t.rows st hgap
  constructor
  · simp only [UdfGenerator.processTable]
    omega
  · rw [UdfGenerator.processTable_elements, leafRanges_append,
      leafRanges_table_singleton, endAfter_append, hbase]
    have hsy2 : (UdfGenerator.processTable st t).content.length
        = (UdfGenerator.processTableRows st t.rows).1.content.length := rfl
    rw [hsy2]
    simp only [Option.some_bind]
    rw [hsync, hx]
    congr 1
    omega

theorem UdfGenerator.footnoteElems_bound (fns : List UdfGenerator.Footnote) (o : Nat) :
    boundedOrdered o (leafRanges (UdfGenerator.footnoteElems o fns))
      (o + (UdfGenerator.footnotesText fns).length) := by
  induction fns generalizing o with
  | nil =>
    simp [UdfGenerator.footnoteElems, UdfGenerator.footnotesText, String.join,
      leafRanges, elemsLeaves, rangesOf, boundedOrdered]
  | cons fn rest ih =>
    simp only [UdfGenerator.footnoteElems, leafRanges_paragraph_cons, rangesOf,
      List.map_cons, List.map_nil, Leaf.range, UdfGenerator.footnotesText_cons,
      String.length_append]
    have h2 := ih (o + (UdfGenerator.footnoteParaText fn).length)
    have hlen := UdfGenerator.footnoteParaText_length fn
    simp only [String.length_append] at hlen
    refine ⟨by omega, by omega, ?_⟩
    have heq : o + 1 + (fn.number.length + (". " : String).length) + fn.text.length
        = o + (UdfGenerator.footnoteParaText fn).length := by omega
    rw [heq]
    exact boundedOrdered_mono_hi h2 (by omega)

theorem UdfGenerator.sectionText_length (fns : List UdfGenerator.Footnote) :
    (UdfGenerator.sectionText fns).length
      = 1 + separatorLine.length + (UdfGenerator.footnotesText fns).length := by
  simp only [UdfGenerator.sectionText, String.length_append, lenNewline]

theorem UdfGenerator.sectionElems_bound (fns : List UdfGenerator.Footnote) (o : Nat) :
    boundedOrdered o (leafRanges (UdfGenerator.sectionElems o fns))
      (o + (UdfGenerator.sectionText fns).length) := by
  simp only [UdfGenerator.sectionElems, leafRanges_paragraph_cons, rangesOf,
    List.map_cons, List.map_nil, Leaf.range, List.nil_append]
  have h := UdfGenerator.footnoteElems_bound fns (o + 1 + separatorLine.length)
  have hl := UdfGenerator.sectionText_length fns
  refine ⟨le_refl _, by omega, ?_⟩
  exact boundedOrdered_mono_hi h (by omega)

theorem UdfGenerator.appendFootnotesSection_sync (st : UdfGenerator.GenState) :
    (UdfGenerator.appendFootnotesSection st).content.length + st.currentOffset
      = st.content.length + (UdfGenerator.appendFootnotesSection st).currentOffset := by
  rw [UdfGenerator.appendFootnotesSection_spec]
  simp only [String.length_append]
  omega

theorem UdfGenerator.appendFootnotesSection_bound (st : UdfGenerator.GenState)
    (hsync : st.content.length = st.currentOffset)
    (hbase : boundedOrdered 0 (leafRanges st.elements) st.content.length) :
    (UdfGenerator.appendFootnotesSection st).content.length
        = (UdfGenerator.appendFootnotesSection st).currentOffset ∧
      boundedOrdered 0
        (leafRanges (UdfGenerator.appendFootnotesSection st).elements)
        (UdfGenerator.appendFootnotesSection st).content.length := by
  rw [UdfGenerator.appendFootnotesSection_spec]
  simp only [String.length_append]
  constructor
  · omega
  · rw [leafRanges_append]
    refine boundedOrdered_append (m := st.currentOffset) ?_ ?_
    · rw [hsync] at hbase
      exact boundedOrdered_mono_hi hbase (by omega)
    · have h := UdfGenerator.sectionElems_bound st.collectedFootnotes st.currentOffset
      exact boundedOrdered_mono_hi h (by omega)

theorem stringJoin_snoc_length (xs : List String) (s : String) :
    (String.join (xs ++ [s])).length = (String.join xs).length + s.length := by
  rw [stringJoin_append, String.length_append, stringJoin_cons]
  simp [String.join, String.length_append]

theorem boundedOrdered_leaf (o len : Nat) (a : String) :
    boundedOrdered o (rangesOf [Leaf.content o len a]) (o + len) := by
  simp [rangesOf, Leaf.range, boundedOrdered]

theorem boundedOrdered_tab (o : Nat) :
    boundedOrdered o (rangesOf [Leaf.tab o]) (o + 1) := by
  simp [rangesOf, Leaf.range, boundedOrdered]

theorem boundedOrdered_image (o : Nat) (d : String) (w h : Int) :
    boundedOrdered o (rangesOf [Leaf.image o d w h]) (o + 1) := by
  simp [rangesOf, Leaf.range, boundedOrdered]

theorem UdfGenerator.processParagraphRuns_bound (runs : List Run) (p : Paragraph)
    (st : UdfGenerator.GenState) (pc : List String) (pe : List Leaf)
    (hsync : st.currentOffset = st.content.length + (String.join pc).length)
    (hbase : boundedOrdered 0 (leafRanges st.elements) st.content.length)
    (hpe : boundedOrdered st.content.length (rangesOf pe) st.currentOffset) :
    (UdfGenerator.processParagraphRuns p st pc pe runs).content.length
        = (UdfGenerator.processParagraphRuns p st pc pe runs).currentOffset ∧
      boundedOrdered 0
        (leafRanges (UdfGenerator.processParagraphRuns p st pc pe runs).elements)
        (UdfGenerator.processParagraphRuns p st pc pe runs).content.length := by
  induction runs generalizing st pc pe with
  | nil =>
    simp only [UdfGenerator.processParagraphRuns]
    by_cases hpcE : pc.isEmpty
    · have hpc : pc = [] := by simpa [List.isEmpty_iff] using hpcE
      subst hpc
      have hco : st.currentOffset = st.content.length := by
        simpa [String.join] using hsync
      simp only [hpcE, if_true]
      have hlen1 : (String.join (([] : List String) ++ ["​"])).length = 1 := by
        rw [stringJoin_snoc_length]
        simp [String.join, lenZwsp]
      constructor
      · dsimp only
        simp only [String.length_append, hlen1]
        omega
      · dsimp only
        rw [leafRanges_para_snoc, rangesOf_append]
        simp only [String.length_append, hlen1]
        have h1 : boundedOrdered 0
            (leafRanges st.elements ++ rangesOf pe) st.currentOffset := by
          refine boundedOrdered_append (m := st.content.length) ?_ hpe
          exact boundedOrdered_mono_hi hbase (by omega)
        have h2 := boundedOrdered_leaf st.currentOffset 1 defaultContentAttrs
        have h3 := boundedOrdered_append h1 h2
        have hend : st.content.length + 1 = st.currentOffset + 1 := by omega
        rw [hend]
        simpa [List.append_assoc] using h3
    · simp only [hpcE, Bool.false_eq_true, if_false]
      constructor
      · dsimp only
        simp only [String.length_append]
        omega
      · dsimp only
        rw [leafRanges_para_snoc]
        have h1 : boundedOrdered 0
            (leafRanges st.elements ++ rangesOf pe) st.currentOffset := by
          refine boundedOrdered_append (m := st.content.length) ?_ hpe
          exact boundedOrdered_mono_hi hbase (by omega)
        have hlen : (st.content ++ String.join pc).length = st.currentOffset := by
          simp only [String.length_append]
          omega
        rw [hlen]
        exact h1
  | cons r rest ih =>
    cases r with
    | text t =>
      simp only [UdfGenerator.processParagraphRuns]
      refine ih _ _ _ ?_ hbase ?_
      · dsimp only
        rw [stringJoin_snoc_length]
        omega
      · dsimp only
        rw [rangesOf_append]
        exact boundedOrdered_append hpe
          (boundedOrdered_leaf st.currentOffset t.text.length
            (UdfGenerator.buildContentAttrs t))
    | tab =>
      simp only [UdfGenerator.processParagraphRuns]
      refine ih _ _ _ ?_ hbase ?_
      · dsimp only
        rw [stringJoin_snoc_length, lenTab]
        omega
      · dsimp only
        rw [rangesOf_append]
        exact boundedOrdered_append hpe (boundedOrdered_tab st.currentOffset)
    | image data w h =>
      simp only [UdfGenerator.processParagraphRuns]
      split
      · refine ih _ _ _ ?_ hbase ?_
        · dsimp only
          rw [stringJoin_snoc_length, lenObjRepl]
          omega
        · dsimp only
          rw [rangesOf_append]
          exact boundedOrdered_append hpe
            (boundedOrdered_image st.currentOffset (data.getD "") w h)
      · exact ih _ _ _ hsync hbase hpe
    | brk =>
      simp only [UdfGenerator.processParagraphRuns]
      refine ih _ _ _ ?_ hbase ?_
      · dsimp only
        rw [stringJoin_snoc_length, lenNewline]
        omega
      · dsimp only
        exact boundedOrdered_mono_hi hpe (by omega)
    | footnoteRef id content =>
      simp only [UdfGenerator.processParagraphRuns]
      refine ih _ _ _ ?_ hbase ?_
      · dsimp only
        rw [stringJoin_snoc_length]
        omega
      · dsimp only
        rw [rangesOf_append]
        exact boundedOrdered_append hpe
          (boundedOrdered_leaf st.currentOffset id.length superscriptAttrs)
    | pageBreak =>
      simp only [UdfGenerator.processParagraphRuns]
      have hc1 : (st.content ++ String.join pc).length = st.currentOffset := by
        simp only [String.length_append]
        omega
      by_cases hpeE : pe.isEmpty
      · simp only [hpeE, if_true]
        by_cases hfnE : st.collectedFootnotes.isEmpty
        · simp only [hfnE, if_true]
          constructor
          · exact hc1
          · dsimp only
            rw [leafRanges_pageBreak_snoc, hc1]
            exact boundedOrdered_mono_hi hbase (by omega)
        · simp only [hfnE, Bool.false_eq_true, if_false]
          have hb2 := UdfGenerator.appendFootnotesSection_bound
            { st with content := st.content ++ String.join pc } hc1
            (boundedOrdered_mono_hi hbase
              (by simp only [String.length_append]; omega))
          constructor
          · simpa using hb2.1
          · dsimp only
            rw [leafRanges_pageBreak_snoc]
            simpa using hb2.2
      · simp only [hpeE, Bool.false_eq_true, if_false]
        have hb1 : boundedOrdered 0
            (leafRanges (st.elements
              ++ [Elem.paragraph (UdfGenerator.buildParagraphAttrs p) pe]))
            ((st.content ++ String.join pc).length) := by
          rw [leafRanges_para_snoc, hc1]
          refine boundedOrdered_append (m := st.content.length) ?_ hpe
          exact boundedOrdered_mono_hi hbase (by omega)
        by_cases hfnE : st.collectedFootnotes.isEmpty
        · simp only [hfnE, if_true]
          constructor
          · exact hc1
          · dsimp only
            rw [leafRanges_pageBreak_snoc, hc1]
            simpa [hc1] using hb1
        · simp only [hfnE, Bool.false_eq_true, if_false]
          have hb2 := UdfGenerator.appendFootnotesSection_bound
            { st with content := st.content ++ String.join pc,
                      elements := st.elements
                        ++ [Elem.paragraph (UdfGenerator.buildParagraphAttrs p) pe] }
            hc1 (by simpa using hb1)
          constructor
          · simpa using hb2.1
          · dsimp only
            rw [leafRanges_pageBreak_snoc]
            simpa using hb2.2

theorem endAfter_leaf (o len : Nat) (a : String) :
    endAfter o (rangesOf [Leaf.content o len a]) = some (o + len) := by
  simp [rangesOf, Leaf.range, endAfter]

theorem endAfter_tab (o : Nat) :
    endAfter o (rangesOf [Leaf.tab o]) = some (o + 1) := by
  simp [rangesOf, Leaf.range, endAfter]

theorem endAfter_image (o : Nat) (d : String) (w h : Int) :
    endAfter o (rangesOf [Leaf.image o d w h]) = some (o + 1) := by
  simp [rangesOf, Leaf.range, endAfter]

theorem UdfGenerator.processParagraphRuns_exact (runs : List Run) (p : Paragraph)
    (st : UdfGenerator.GenState) (pc : List String) (pe : List Leaf)
    (hruns : runs.all (fun r => !r.isBrk && !r.isFootnoteRef) = true)
    (hfn : st.collectedFootnotes = [])
    (hsync : st.currentOffset = st.content.length + (String.join pc).length)
    (hbase : endAfter 0 (leafRanges st.elements) = some st.content.length)
    (hpe : endAfter st.content.length (rangesOf pe) = some st.currentOffset) :
    (UdfGenerator.processParagraphRuns p st pc pe runs).content.length
        = (UdfGenerator.processParagraphRuns p st pc pe runs).currentOffset ∧
      endAfter 0
        (leafRanges (UdfGenerator.processParagraphRuns p st pc pe runs).elements)
        = some (UdfGenerator.processParagraphRuns p st pc pe runs).content.length ∧
      (UdfGenerator.processParagraphRuns p st pc pe runs).collectedFootnotes = [] := by
  induction runs generalizing st pc pe with
  | nil =>
    simp only [UdfGenerator.processParagraphRuns]
    by_cases hpcE : pc.isEmpty
    · have hpc : pc = [] := by simpa [List.isEmpty_iff] using hpcE
      subst hpc
      have hco : st.currentOffset = st.content.length := by
        simpa [String.join] using hsync
      simp only [hpcE, if_true]
      have hlen1 : (String.join (([] : List String) ++ ["​"])).length = 1 := by
        rw [stringJoin_snoc_length]
        simp [String.join, lenZwsp]
      refine ⟨?_, ?_, ?_⟩
      · dsimp only
        simp only [String.length_append, hlen1]
        omega
      · dsimp only
        rw [leafRanges_para_snoc, rangesOf_append, endAfter_append, hbase]
        simp only [Option.some_bind]
        rw [endAfter_append, hpe]
        simp only [Option.some_bind]
        rw [endAfter_leaf]
        simp only [String.length_append, hlen1]
        congr 1
        omega
      · exact hfn
    · simp only [hpcE, Bool.false_eq_true, if_false]
      refine ⟨?_, ?_, ?_⟩
      · dsimp only
        simp only [String.length_append]
        omega
      · dsimp only
        rw [leafRanges_para_snoc, endAfter_append, hbase]
        simp only [Option.some_bind]
        rw [hpe]
        simp only [String.length_append]
        congr 1
      · exact hfn
  | cons r rest ih =>
    cases r with
    | text t =>
      simp only [UdfGenerator.processParagraphRuns]
      refine ih _ _ _ (allTail hruns) hfn ?_ hbase ?_
      · dsimp only
        rw [stringJoin_snoc_length]
        omega
      · dsimp only
        rw [rangesOf_append, endAfter_append, hpe]
        simp only [Option.some_bind]
        exact endAfter_leaf st.currentOffset t.text.length
          (UdfGenerator.buildContentAttrs t)
    | tab =>
      simp only [UdfGenerator.processParagraphRuns]
      refine ih _ _ _ (allTail hruns) hfn ?_ hbase ?_
      · dsimp only
        rw [stringJoin_snoc_length, lenTab]
        omega
      · dsimp only
        rw [rangesOf_append, endAfter_append, hpe]
        simp only [Option.some_bind]
        exact endAfter_tab st.currentOffset
    | image data w h =>
      simp only [UdfGenerator.processParagraphRuns]
      split
      · refine ih _ _ _ (allTail hruns) hfn ?_ hbase ?_
        · dsimp only
          rw [stringJoin_snoc_length, lenObjRepl]
          omega
        · dsimp only
          rw [rangesOf_append, endAfter_append, hpe]
          simp only [Option.some_bind]
          exact endAfter_image st.currentOffset (data.getD "") w h
      · exact ih _ _ _ (allTail hruns) hfn hsync hbase hpe
    | brk =>
      have := allHead hruns
      simp [Run.isBrk] at this
    | footnoteRef id content =>
      have := allHead hruns
      simp [Run.isFootnoteRef] at this
    | pageBreak =>
      simp only [UdfGenerator.processParagraphRuns]
      have hc1 : (st.content ++ String.join pc).length = st.currentOffset := by
        simp only [String.length_append]
        omega
      have hfnE : st.collectedFootnotes.isEmpty = true := by
        rw [hfn]; rfl
      by_cases hpeE : pe.isEmpty
      · simp only [hpeE, if_true, hfnE]
        refine ⟨hc1, ?_, hfn⟩
        dsimp only
        rw [leafRanges_pageBreak_snoc, hc1]
        have hpe0 : st.content.length = st.currentOffset := by
          have hp : pe = [] := by simpa [List.isEmpty_iff] using hpeE
          rw [hp] at hpe
          simpa [rangesOf, endAfter] using hpe
        rw [← hpe0]
        exact hbase
      · simp only [hpeE, Bool.false_eq_true, if_false, hfnE, if_true]
        refine ⟨hc1, ?_, hfn⟩
        dsimp only
        rw [leafRanges_pageBreak_snoc, leafRanges_para_snoc, endAfter_append, hbase]
        simp only [Option.some_bind]
        rw [hpe, hc1]

theorem UdfGenerator.processParagraph_bound (p : Paragraph)
    (st : UdfGenerator.GenState)
    (hsync : st.content.length = st.currentOffset)
    (hbase : boundedOrdered 0 (leafRanges st.elements) st.content.length) :
    (UdfGenerator.processParagraph st p).content.length
        = (UdfGenerator.processParagraph st p).currentOffset ∧
      boundedOrdered 0 (leafRanges (UdfGenerator.processParagraph st p).elements)
        (UdfGenerator.processParagraph st p).content.length := by
  refine UdfGenerator.processParagraphRuns_bound p.runs p st [] [] ?_ hbase ?_
  · simp [String.join]
    omega
  · simp only [rangesOf, List.map_nil]
    show boundedOrdered st.content.length [] st.currentOffset
    simp only [boundedOrdered]
    omega

theorem UdfGenerator.processParagraph_exact (p : Paragraph)
    (st : UdfGenerator.GenState)
    (hgap : Paragraph.gapFree p = true)
    (hfn : st.collectedFootnotes = [])
    (hsync : st.content.length = st.currentOffset)
    (hbase : endAfter 0 (leafRanges st.elements) = some st.content.length) :
    (UdfGenerator.processParagraph st p).content.length
        = (UdfGenerator.processParagraph st p).currentOffset ∧
      endAfter 0 (leafRanges (UdfGenerator.processParagraph st p).elements)
        = some (UdfGenerator.processParagraph st p).content.length ∧
      (UdfGenerator.processParagraph st p).collectedFootnotes = [] := by
  refine UdfGenerator.processParagraphRuns_exact p.runs p st [] [] hgap hfn ?_ hbase ?_
  · simp [String.join]
    omega
  · simp only [rangesOf, List.map_nil]
    show endAfter st.content.length [] = some st.currentOffset
    simp only [endAfter]
    rw [hsync]

theorem UdfGenerator.processBlocks_bound (bs : List DocBlock)
    (st : UdfGenerator.GenState)
    (hsync : st.content.length = st.currentOffset)
    (hbase : boundedOrdered 0 (leafRanges st.elements) st.content.length) :
    (UdfGenerator.processBlocks st bs).content.length
        = (UdfGenerator.processBlocks st bs).currentOffset ∧
      boundedOrdered 0 (leafRanges (UdfGenerator.processBlocks st bs).elements)
        (UdfGenerator.processBlocks st bs).content.length := by
  induction bs generalizing st with
  | nil => exact ⟨hsync, hbase⟩
  | cons b rest ih =>
    cases b with
    | paragraph p =>
      simp only [UdfGenerator.processBlocks]
      have h := UdfGenerator.processParagraph_bound p st hsync hbase
      exact ih _ h.1 h.2
    | table t =>
      simp only [UdfGenerator.processBlocks]
      have h := UdfGenerator.processTable_bound t st hsync hbase
      exact ih _ h.1 h.2

theorem UdfGenerator.processBlocks_exact (bs : List DocBlock)
    (st : UdfGenerator.GenState)
    (hgap : bs.all DocBlock.gapFree = true)
    (hfn : st.collectedFootnotes = [])
    (hsync : st.content.length = st.currentOffset)
    (hbase : endAfter 0 (leafRanges st.elements) = some st.content.length) :
    (UdfGenerator.processBlocks st bs).content.length
        = (UdfGenerator.processBlocks st bs).currentOffset ∧
      endAfter 0 (leafRanges (UdfGenerator.processBlocks st bs).elements)
        = some (UdfGenerator.processBlocks st bs).content.length ∧
      (UdfGenerator.processBlocks st bs).collectedFootnotes = [] := by
  induction bs generalizing st with
  | nil => exact ⟨hsync, hbase, hfn⟩
  | cons b rest ih =>
    cases b with
    | paragraph p =>
      simp only [UdfGenerator.processBlocks]
      have hg : Paragraph.gapFree p = true := allHead (p := DocBlock.gapFree) hgap
      have h := UdfGenerator.processParagraph_exact p st hg hfn hsync hbase
      exact ih _ (allTail hgap) h.2.2 h.1 h.2.1
    | table t =>
      simp only [UdfGenerator.processBlocks]
      have hg : Table.gapFree t = true := allHead (p := DocBlock.gapFree) hgap
      have ht := UdfGenerator.processTable_exact t st hg hsync hbase
      have hfn2 : (UdfGenerator.processTable st t).collectedFootnotes = [] := by
        rw [UdfGenerator.processTable_noFn t st ?_]
        · exact hfn
        · simp only [Table.gapFree] at hg
          simp only [Table.noFn]
          rw [List.all_eq_true] at hg ⊢
          intro r hr
          have := hg r hr
          rw [List.all_eq_true] at this ⊢
          intro c hc
          have hcg := this c hc
          simp only [Cell.gapFree, Bool.and_eq_true] at hcg
          exact hcg.2
      exact ih _ (allTail hgap) hfn2 ht.1 ht.2

theorem UdfGenerator.initState_sync :
    UdfGenerator.initState.content.length = UdfGenerator.initState.currentOffset := rfl

theorem UdfGenerator.initState_ranges : leafRanges UdfGenerator.initState.elements = [] := rfl

theorem UdfGenerator.generate_bound (doc : Document) :
    boundedOrdered 0 (leafRanges (UdfGenerator.generate doc).elements)
      (UdfGenerator.generate doc).content.length := by
  simp only [UdfGenerator.generate]
  have h0 := UdfGenerator.processBlocks_bound doc.elements UdfGenerator.initState
    rfl (by rw [UdfGenerator.initState_ranges]; exact Nat.le_refl 0)
  by_cases hfn : (UdfGenerator.processBlocks UdfGenerator.initState doc.elements).collectedFootnotes.isEmpty
  · simp only [hfn, if_true]
    by_cases hz : (UdfGenerator.processBlocks UdfGenerator.initState doc.elements).content.length = 0
    · simp only [hz, if_pos]
      rw [leafRanges_para_snoc]
      refine boundedOrdered_append (m := 0) ?_ ?_
      · rw [hz] at h0
        exact boundedOrdered_mono_hi h0.2 (by omega)
      · simpa [lenZwsp] using boundedOrdered_leaf 0 1 defaultContentAttrs
    · simp only [hz, if_neg, if_false]
      exact h0.2
  · simp only [hfn, Bool.false_eq_true, if_false]
    have h1 := UdfGenerator.appendFootnotesSection_bound _ h0.1 h0.2
    by_cases hz : (UdfGenerator.appendFootnotesSection (UdfGenerator.processBlocks UdfGenerator.initState doc.elements)).content.length = 0
    · simp only [hz, if_pos]
      rw [leafRanges_para_snoc]
      refine boundedOrdered_append (m := 0) ?_ ?_
      · rw [hz] at h1
        exact boundedOrdered_mono_hi h1.2 (by omega)
      · simpa [lenZwsp] using boundedOrdered_leaf 0 1 defaultContentAttrs
    · simp only [hz, if_neg, if_false]
      exact h1.2

theorem UdfGenerator.generate_exact (doc : Document)
    (h : Document.gapFree doc = true) :
    endAfter 0 (leafRanges (UdfGenerator.generate doc).elements)
      = some (UdfGenerator.generate doc).content.length := by
  simp only [UdfGenerator.generate]
  have h0 := UdfGenerator.processBlocks_exact doc.elements UdfGenerator.initState
    h rfl rfl (by rw [UdfGenerator.initState_ranges]; rfl)
  have hfn : (UdfGenerator.processBlocks UdfGenerator.initState doc.elements).collectedFootnotes.isEmpty = true := by
    rw [h0.2.2]; rfl
  simp only [hfn, if_true]
  by_cases hz : (UdfGenerator.processBlocks UdfGenerator.initState doc.elements).content.length = 0
  · simp only [hz, if_pos]
    rw [leafRanges_para_snoc, endAfter_append, h0.2.1, hz]
    simp only [Option.some_bind]
    rw [endAfter_leaf]
    simp [lenZwsp]
  · simp only [hz, if_neg, if_false]
    exact h0.2.1

/-- C10: between any two consecutive top-level blocks the accumulated buffer
length equals the cursor (`processBlocks` over any prefix of the document's
blocks preserves `content.length = currentOffset` from the fresh state), the
same holds directly after a footnote flush applied at such a point, and
consequently every emitted content/tab/image element of the final output
satisfies `startOffset + length ≤ buffer length`. -/
theorem claim_C10 :
    (∀ (doc : Document) (n : Nat),
      (UdfGenerator.processBlocks UdfGenerator.initState (doc.elements.take n)).content.length
        = (UdfGenerator.processBlocks UdfGenerator.initState (doc.elements.take n)).currentOffset) ∧
    (∀ (doc : Document) (n : Nat),
      (UdfGenerator.appendFootnotesSection
          (UdfGenerator.processBlocks UdfGenerator.initState (doc.elements.take n))).content.length
        = (UdfGenerator.appendFootnotesSection
            (UdfGenerator.processBlocks UdfGenerator.initState (doc.elements.take n))).currentOffset) ∧
    (∀ (doc : Document) (r : Nat × Nat),
      r ∈ leafRanges (UdfGenerator.generate doc).elements →
        r.1 + r.2 ≤ (UdfGenerator.generate doc).content.length) := by
  have key : ∀ (doc : Document) (n : Nat),
      (UdfGenerator.processBlocks UdfGenerator.initState (doc.elements.take n)).content.length
        = (UdfGenerator.processBlocks UdfGenerator.initState (doc.elements.take n)).currentOffset := by
    intro doc n
    exact (UdfGenerator.processBlocks_bound (doc.elements.take n) UdfGenerator.initState
      rfl (by rw [UdfGenerator.initState_ranges]; exact Nat.le_refl 0)).1
  refine ⟨key, ?_, ?_⟩
  · intro doc n
    have hs := UdfGenerator.appendFootnotesSection_sync
      (UdfGenerator.processBlocks UdfGenerator.initState (doc.elements.take n))
    have hk := key doc n
    omega
  · intro doc r hr
    exact (boundedOrdered_mem (UdfGenerator.generate_bound doc) hr).2

/-- C10 witness: the theorem applied to a concrete one-paragraph document
whose single text run covers the range `(0, 2)`. -/
theorem claim_C10_witness :
    ((0, 2) ∈ leafRanges (UdfGenerator.generate sampleTextDoc).elements) ∧
      (0 : Nat) + 2 ≤ (UdfGenerator.generate sampleTextDoc).content.length := by
  refine ⟨by decide, ?_⟩
  exact claim_C10.2.2 sampleTextDoc (0, 2) (by decide)

/-- C1 counterexample: a document whose only paragraph holds a single
line-break run.  Its buffer is the one-character string `"\n"`, yet no
content/tab/image element is emitted at all, so the sum of element lengths
is `0 ≠ 1` and the `(startOffset, length)` pairs do not cover the buffer:
the claim as stated is false on the code. -/
theorem claim_C1_counterexample :
    (UdfGenerator.generate sampleBrkDoc).content.length = 1 ∧
      leafRanges (UdfGenerator.generate sampleBrkDoc).elements = [] ∧
      ((leafRanges (UdfGenerator.generate sampleBrkDoc).elements).map Prod.snd).sum = 0 ∧
      endAfter 0 (leafRanges (UdfGenerator.generate sampleBrkDoc).elements)
        ≠ some (UdfGenerator.generate sampleBrkDoc).content.length := by
  refine ⟨by decide, by decide, by decide, by decide⟩

/-- C1 (amended): for every parsed document containing no line-break run in
a body paragraph, no footnote-reference run anywhere, and no table cell
with more than one paragraph (`Document.gapFree`), the final buffer's
length equals the sum of the lengths of every emitted content/tab/image
element, and their `(startOffset, length)` pairs, in emission order, tile
the buffer contiguously with no gaps and no overlaps (`endAfter`).
In general each line-break newline, each inter-paragraph newline inside a
table cell, and the newline before each flushed footnote entry occupy
buffer positions covered by no element. -/
theorem claim_C1 (doc : Document) (h : Document.gapFree doc = true) :
    endAfter 0 (leafRanges (UdfGenerator.generate doc).elements)
        = some (UdfGenerator.generate doc).content.length ∧
      ((leafRanges (UdfGenerator.generate doc).elements).map Prod.snd).sum
        = (UdfGenerator.generate doc).content.length := by
  have hx := UdfGenerator.generate_exact doc h
  refine ⟨hx, ?_⟩
  have := endAfter_sum 0 _ _ hx
  omega

/-- C1 witness: the amended claim evaluated on a concrete gap-free
document with one two-character text run. -/
theorem claim_C1_witness :
    Document.gapFree sampleTextDoc = true ∧
      (endAfter 0 (leafRanges (UdfGenerator.generate sampleTextDoc).elements)
          = some (UdfGenerator.generate sampleTextDoc).content.length ∧
        ((leafRanges (UdfGenerator.generate sampleTextDoc).elements).map Prod.snd).sum
          = (UdfGenerator.generate sampleTextDoc).content.length) :=
  ⟨by decide, claim_C1 sampleTextDoc (by decide)⟩

/-- C2 counterexample: two different lower-level failure causes — an
unreadable package container and a malformed body XML — produce the *same*
single error result (`err parseErrorMessage`); there are not two
distinguishable parser-raised error kinds, so the claim as stated is false
on the code. -/
theorem claim_C2_counterexample :
    DocxParser.parse (Except.error "the ZIP container could not be read")
        = DocxParser.parse (Except.error "word/document.xml is not well-formed") ∧
      DocxParser.parse (Except.error "the ZIP container could not be read")
        = DocxParser.ParseResult.err DocxParser.parseErrorMessage := by
  exact ⟨rfl, rfl⟩

/-- C2 (amended): for every input on which parsing fails, `parse` raises
exactly one error kind — a single generic `Error` with the fixed message
`parseErrorMessage` ("Failed to parse DOCX file. ...") produced by the
catch-all at lines 41–44 — which is distinguishable from every successful
output; no `MalformedPackageError` / `UnsupportedDocumentError` taxonomy
exists in the code. -/
theorem claim_C2 (e : String) (d : Document) :
    DocxParser.parse (Except.error e)
        = DocxParser.ParseResult.err DocxParser.parseErrorMessage ∧
      DocxParser.parse (Except.error e) ≠ DocxParser.ParseResult.ok d ∧
      DocxParser.parse (Except.ok d) = DocxParser.ParseResult.ok d := by
  refine ⟨rfl, ?_, rfl⟩
  simp [DocxParser.parse]

/-- C5: colour conversion maps `"#FF0000"` to the signed 32-bit integer
`-65536`, that value agrees with the formula
`(0xFF<<24)|(R<<16)|(G<<8)|B` (with `R = 0xFF`, `G = B = 0`) reinterpreted
as a signed 32-bit integer, and an absent colour maps to `-16777216`. -/
theorem claim_C5 :
    UdfGenerator.hexToRgbInt (some "#FF0000") = -65536 ∧
      toSigned32 (Nat.lor (Nat.lor (Nat.lor (255 <<< 24) (255 <<< 16)) (0 <<< 8)) 0)
        = -65536 ∧
      UdfGenerator.hexToRgbInt none = -16777216 := by
  refine ⟨by decide, by decide, by decide⟩

/-- C6: a document whose model contains no block elements serializes to the
single zero-width-space buffer with exactly one default-formatted paragraph
element of length 1, and for every input document the final buffer is
non-empty. -/
theorem claim_C6 :
    (UdfGenerator.generate ⟨[]⟩).content = "​" ∧
      (UdfGenerator.generate ⟨[]⟩).elements
        = [Elem.paragraph defaultParaAttrs [Leaf.content 0 1 defaultContentAttrs]] ∧
      ∀ doc : Document, (UdfGenerator.generate doc).content ≠ "" := by
  refine ⟨by decide, by decide, ?_⟩
  intro doc
  simp only [UdfGenerator.generate]
  by_cases hfn : (UdfGenerator.processBlocks UdfGenerator.initState doc.elements).collectedFootnotes.isEmpty
  · simp only [hfn, if_true]
    by_cases hz : (UdfGenerator.processBlocks UdfGenerator.initState doc.elements).content.length = 0
    · simp only [hz, if_pos]
      decide
    · simp only [hz, if_neg, if_false]
      intro hc
      exact hz (by rw [hc]; rfl)
  · simp only [hfn, Bool.false_eq_true, if_false]
    by_cases hz : (UdfGenerator.appendFootnotesSection (UdfGenerator.processBlocks UdfGenerator.initState doc.elements)).content.length = 0
    · simp only [hz, if_pos]
      decide
    · simp only [hz, if_neg, if_false]
      intro hc
      exact hz (by rw [hc]; rfl)

/-- C7: a continuation (vertically-merged) cell contributes nothing at all
to a row — processing a cell list with such a cell yields exactly the same
state (buffer, cursor, elements, footnotes) and the same emitted cells as
processing the list with that cell removed — while a cell with the merge
flag unset is rendered through `processTableCell` as usual. -/
theorem claim_C7 :
    (∀ (st : UdfGenerator.GenState) (pre post : List Cell) (ps : List Paragraph)
        (cs : Int) (va bg : Option String),
      UdfGenerator.processRowCells st (pre ++ (⟨ps, cs, true, va, bg⟩ : Cell) :: post)
        = UdfGenerator.processRowCells st (pre ++ post)) ∧
    (∀ (st : UdfGenerator.GenState) (ps : List Paragraph) (cs : Int)
        (va bg : Option String),
      UdfGenerator.processRowCells st [(⟨ps, cs, false, va, bg⟩ : Cell)]
        = ((UdfGenerator.processTableCell st ⟨ps, cs, false, va, bg⟩).1,
           [⟨UdfGenerator.cellAttrs ⟨ps, cs, false, va, bg⟩,
             (UdfGenerator.processTableCell st ⟨ps, cs, false, va, bg⟩).2⟩])) := by
  constructor
  · intro st pre post ps cs va bg
    induction pre generalizing st with
    | nil =>
      simp only [List.nil_append, UdfGenerator.processRowCells]
      simp
    | cons c pre' ih =>
      simp only [List.cons_append, UdfGenerator.processRowCells]
      split
      · exact ih st
      · simp only [List.append_eq]
        rw [ih]
  · intro st ps cs va bg
    rfl

/-- C8: inside a table cell, `break` and `pageBreak` runs match no branch of
the run loop and are silently dropped — the state and the accumulated leaf
list are exactly those of the run list with the break removed — whereas in
a body paragraph the same `break` run appends a newline and advances the
cursor by one, and a `pageBreak` run terminates the paragraph (the result
does not depend on the runs after it). -/
theorem claim_C8 :
    (∀ (st : UdfGenerator.GenState) (pe : List Leaf) (pre post : List Run),
      UdfGenerator.processCellRuns st pe (pre ++ Run.brk :: post)
        = UdfGenerator.processCellRuns st pe (pre ++ post)) ∧
    (∀ (st : UdfGenerator.GenState) (pe : List Leaf) (pre post : List Run),
      UdfGenerator.processCellRuns st pe (pre ++ Run.pageBreak :: post)
        = UdfGenerator.processCellRuns st pe (pre ++ post)) ∧
    (∀ (p : Paragraph) (st : UdfGenerator.GenState) (pc : List String)
        (pe : List Leaf) (rs : List Run),
      UdfGenerator.processParagraphRuns p st pc pe (Run.brk :: rs)
        = UdfGenerator.processParagraphRuns p
            { st with currentOffset := st.currentOffset + 1 }
            (pc ++ ["\n"]) pe rs) ∧
    (∀ (p : Paragraph) (st : UdfGenerator.GenState) (pc : List String)
        (pe : List Leaf) (rs : List Run),
      UdfGenerator.processParagraphRuns p st pc pe (Run.pageBreak :: rs)
        = UdfGenerator.processParagraphRuns p st pc pe [Run.pageBreak]) := by
  have drop : ∀ (r0 : Run), (∀ (st : UdfGenerator.GenState) (pe : List Leaf)
        (post : List Run), UdfGenerator.processCellRuns st pe (r0 :: post)
          = UdfGenerator.processCellRuns st pe post) →
      ∀ (st : UdfGenerator.GenState) (pe : List Leaf) (pre post : List Run),
        UdfGenerator.processCellRuns st pe (pre ++ r0 :: post)
          = UdfGenerator.processCellRuns st pe (pre ++ post) := by
    intro r0 hstep st pe pre post
    induction pre generalizing st pe with
    | nil => simpa using hstep st pe post
    | cons r pre' ih =>
      cases r with
      | text t =>
        simp only [List.cons_append, UdfGenerator.processCellRuns]
        exact ih _ _
      | tab =>
        simp only [List.cons_append, UdfGenerator.processCellRuns]
        exact ih _ _
      | image d w h =>
        simp only [List.cons_append, UdfGenerator.processCellRuns]
        split
        · exact ih _ _
        · exact ih _ _
      | brk =>
        simp only [List.cons_append, UdfGenerator.processCellRuns]
        exact ih _ _
      | pageBreak =>
        simp only [List.cons_append, UdfGenerator.processCellRuns]
        exact ih _ _
      | footnoteRef id content =>
        simp only [List.cons_append, UdfGenerator.processCellRuns]
        exact ih _ _
  refine ⟨drop Run.brk (fun st pe post => rfl), drop Run.pageBreak (fun st pe post => rfl),
    fun p st pc pe rs => rfl, fun p st pc pe rs => rfl⟩

theorem UdfGenerator.processParagraphRuns_accum (p : Paragraph) (pre : List Run)
    (h : pre.all (fun r => !r.isPageBreak) = true) :
    ∀ (st : UdfGenerator.GenState) (pc : List String) (pe : List Leaf),
    ∃ st' pc' pe', ∀ q : List Run,
      UdfGenerator.processParagraphRuns p st pc pe (pre ++ q)
        = UdfGenerator.processParagraphRuns p st' pc' pe' q := by
  induction pre with
  | nil =>
    intro st pc pe
    exact ⟨st, pc, pe, fun q => by rw [List.nil_append]⟩
  | cons r pre' ih =>
    intro st pc pe
    cases r with
    | text t =>
      obtain ⟨st', pc', pe', hq⟩ := ih (allTail h)
        { st with currentOffset := st.currentOffset + t.text.length }
        (pc ++ [t.text])
        (pe ++ [Leaf.content st.currentOffset t.text.length (UdfGenerator.buildContentAttrs t)])
      exact ⟨st', pc', pe', fun q => by
        rw [List.cons_append]
        simp only [UdfGenerator.processParagraphRuns]
        exact hq q⟩
    | tab =>
      obtain ⟨st', pc', pe', hq⟩ := ih (allTail h)
        { st with currentOffset := st.currentOffset + 1 }
        (pc ++ ["\t"]) (pe ++ [Leaf.tab st.currentOffset])
      exact ⟨st', pc', pe', fun q => by
        rw [List.cons_append]
        simp only [UdfGenerator.processParagraphRuns]
        exact hq q⟩
    | image data w hh =>
      by_cases hd : jsTruthyStr data = true
      · obtain ⟨st', pc', pe', hq⟩ := ih (allTail h)
          { st with currentOffset := st.currentOffset + 1 }
          (pc ++ ["￼"]) (pe ++ [Leaf.image st.currentOffset (data.getD "") w hh])
        exact ⟨st', pc', pe', fun q => by
          rw [List.cons_append]
          simp only [UdfGenerator.processParagraphRuns, hd, if_true]
          exact hq q⟩
      · obtain ⟨st', pc', pe', hq⟩ := ih (allTail h) st pc pe
        exact ⟨st', pc', pe', fun q => by
          rw [List.cons_append]
          simp only [UdfGenerator.processParagraphRuns, hd, Bool.false_eq_true, if_false]
          exact hq q⟩
    | brk =>
      obtain ⟨st', pc', pe', hq⟩ := ih (allTail h)
        { st with currentOffset := st.currentOffset + 1 } (pc ++ ["\n"]) pe
      exact ⟨st', pc', pe', fun q => by
        rw [List.cons_append]
        simp only [UdfGenerator.processParagraphRuns]
        exact hq q⟩
    | pageBreak =>
      have := allHead h
      simp [Run.isPageBreak] at this
    | footnoteRef id content =>
      obtain ⟨st', pc', pe', hq⟩ := ih (allTail h)
        { st with currentOffset := st.currentOffset + id.length,
                  collectedFootnotes := st.collectedFootnotes ++ [⟨id, content⟩] }
        (pc ++ [id]) (pe ++ [Leaf.content st.currentOffset id.length superscriptAttrs])
      exact ⟨st', pc', pe', fun q => by
        rw [List.cons_append]
        simp only [UdfGenerator.processParagraphRuns]
        exact hq q⟩

/-- C3: for a body paragraph whose runs are `pre ++ pageBreak :: post` with
no page break in `pre`, processing reaches a loop state `(st', pc', pe')`
after `pre` and then terminates early: the collected text is flushed into
the buffer, the collected runs are flushed into the current paragraph
element when any exist, any pending footnotes are emitted (immediately
before the page-break marker) and the pending list cleared, the page-break
marker element is appended — and the runs in `post` are never processed
(the result does not depend on `post`), with the pending list empty at the
end. -/
theorem claim_C3 (p : Paragraph) (st : UdfGenerator.GenState) (pre post : List Run)
    (h : pre.all (fun r => !r.isPageBreak) = true) :
    ∃ (st' : UdfGenerator.GenState) (pc' : List String) (pe' : List Leaf),
      (∀ q : List Run, UdfGenerator.processParagraphRuns p st [] [] (pre ++ q)
          = UdfGenerator.processParagraphRuns p st' pc' pe' q) ∧
      UdfGenerator.processParagraphRuns p st [] [] (pre ++ Run.pageBreak :: post)
        = (let st1 := { st' with content := st'.content ++ String.join pc' }
           let st2 := if pe'.isEmpty then st1
             else { st1 with elements := st1.elements ++ [Elem.paragraph (UdfGenerator.buildParagraphAttrs p) pe'] }
           let st3 := if st2.collectedFootnotes.isEmpty then st2
             else { UdfGenerator.appendFootnotesSection st2 with collectedFootnotes := [] }
           { st3 with elements := st3.elements ++ [Elem.pageBreak] }) ∧
      (UdfGenerator.processParagraphRuns p st [] [] (pre ++ Run.pageBreak :: post)).collectedFootnotes
        = [] ∧
      UdfGenerator.processParagraphRuns p st [] [] (pre ++ Run.pageBreak :: post)
        = UdfGenerator.processParagraphRuns p st [] [] (pre ++ [Run.pageBreak]) := by
  obtain ⟨st', pc', pe', hq⟩ := UdfGenerator.processParagraphRuns_accum p pre h st [] []
  refine ⟨st', pc', pe', hq, ?_, ?_, ?_⟩
  · rw [hq (Run.pageBreak :: post)]
    rfl
  · rw [hq (Run.pageBreak :: post)]
    simp only [UdfGenerator.processParagraphRuns]
    split
    · split
      · next he => simpa [List.isEmpty_iff] using he
      · rfl
    · split
      · next he => simpa [List.isEmpty_iff] using he
      · rfl
  · rw [hq (Run.pageBreak :: post), hq [Run.pageBreak]]
    rfl

/-- C3 witness: the theorem applied to a concrete paragraph whose runs are
one text run, then a page break, then a tab that must never be processed. -/
theorem claim_C3_witness :
    ∃ (st' : UdfGenerator.GenState) (pc' : List String) (pe' : List Leaf),
      (∀ q : List Run, UdfGenerator.processParagraphRuns samplePara
            UdfGenerator.initState [] [] ([Run.text sampleTextRun] ++ q)
          = UdfGenerator.processParagraphRuns samplePara st' pc' pe' q) ∧
      UdfGenerator.processParagraphRuns samplePara UdfGenerator.initState [] []
          ([Run.text sampleTextRun] ++ Run.pageBreak :: [Run.tab])
        = (let st1 := { st' with content := st'.content ++ String.join pc' }
           let st2 := if pe'.isEmpty then st1
             else { st1 with elements := st1.elements ++ [Elem.paragraph (UdfGenerator.buildParagraphAttrs samplePara) pe'] }
           let st3 := if st2.collectedFootnotes.isEmpty then st2
             else { UdfGenerator.appendFootnotesSection st2 with collectedFootnotes := [] }
           { st3 with elements := st3.elements ++ [Elem.pageBreak] }) ∧
      (UdfGenerator.processParagraphRuns samplePara UdfGenerator.initState [] []
          ([Run.text sampleTextRun] ++ Run.pageBreak :: [Run.tab])).collectedFootnotes
        = [] ∧
      UdfGenerator.processParagraphRuns samplePara UdfGenerator.initState [] []
          ([Run.text sampleTextRun] ++ Run.pageBreak :: [Run.tab])
        = UdfGenerator.processParagraphRuns samplePara UdfGenerator.initState [] []
            ([Run.text sampleTextRun] ++ [Run.pageBreak]) :=
  claim_C3 samplePara UdfGenerator.initState [Run.text sampleTextRun] [Run.tab] (by decide)

/-- C4: one footnote flush from cursor `o` appends exactly
`sectionText` to the buffer and `sectionElems` to the element list — a
blank-line paragraph covering the newline at `o`, a separator-line
paragraph covering the fixed 20-character rule, then, in collection order,
one paragraph per pending footnote holding a superscripted `number. `
content element and a regular-weight body content element — with all
leaf ranges in order, pairwise disjoint and inside the appended interval;
at document end, if no footnotes are pending `generate` emits no section,
and if some are pending it flushes them exactly once, directly appending
`sectionElems` after the blocks' elements. -/
theorem claim_C4 (st : UdfGenerator.GenState) (doc : Document) :
    UdfGenerator.appendFootnotesSection st
        = { st with
            content := st.content ++ UdfGenerator.sectionText st.collectedFootnotes,
            elements := st.elements
              ++ UdfGenerator.sectionElems st.currentOffset st.collectedFootnotes,
            currentOffset := st.currentOffset
              + (UdfGenerator.sectionText st.collectedFootnotes).length } ∧
      boundedOrdered st.currentOffset
        (leafRanges (UdfGenerator.sectionElems st.currentOffset st.collectedFootnotes))
        (st.currentOffset + (UdfGenerator.sectionText st.collectedFootnotes).length) ∧
      ((UdfGenerator.processBlocks UdfGenerator.initState doc.elements).collectedFootnotes = []
        → (UdfGenerator.generate doc).elements
            = (UdfGenerator.processBlocks UdfGenerator.initState doc.elements).elements
              ∨ (UdfGenerator.generate doc).elements
                  = (UdfGenerator.processBlocks UdfGenerator.initState doc.elements).elements
                    ++ [Elem.paragraph defaultParaAttrs [Leaf.content 0 1 defaultContentAttrs]]) ∧
      ((UdfGenerator.processBlocks UdfGenerator.initState doc.elements).collectedFootnotes ≠ []
        → (UdfGenerator.generate doc).elements
            = (UdfGenerator.processBlocks UdfGenerator.initState doc.elements).elements
              ++ UdfGenerator.sectionElems
                  (UdfGenerator.processBlocks UdfGenerator.initState doc.elements).currentOffset
                  (UdfGenerator.processBlocks UdfGenerator.initState doc.elements).collectedFootnotes) := by
  refine ⟨UdfGenerator.appendFootnotesSection_spec st,
    UdfGenerator.sectionElems_bound st.collectedFootnotes st.currentOffset, ?_, ?_⟩
  · intro hnil
    have hfn : (UdfGenerator.processBlocks UdfGenerator.initState doc.elements).collectedFootnotes.isEmpty = true := by
      rw [hnil]; rfl
    simp only [UdfGenerator.generate, hfn, if_true]
    by_cases hz : (UdfGenerator.processBlocks UdfGenerator.initState doc.elements).content.length = 0
    · simp only [hz, if_pos]
      right
      trivial
    · simp only [hz, if_neg, if_false]
      left
      trivial
  · intro hne
    have hfn : (UdfGenerator.processBlocks UdfGenerator.initState doc.elements).collectedFootnotes.isEmpty = false := by
      cases hc : (UdfGenerator.processBlocks UdfGenerator.initState doc.elements).collectedFootnotes with
      | nil => exact absurd hc hne
      | cons a l => rfl
    simp only [UdfGenerator.generate, hfn, Bool.false_eq_true, if_false]
    have hspec := UdfGenerator.appendFootnotesSection_spec
      (UdfGenerator.processBlocks UdfGenerator.initState doc.elements)
    have hzlen : (UdfGenerator.appendFootnotesSection
        (UdfGenerator.processBlocks UdfGenerator.initState doc.elements)).content.length ≠ 0 := by
      rw [hspec]
      simp only [String.length_append]
      have := UdfGenerator.sectionText_length
        (UdfGenerator.processBlocks UdfGenerator.initState doc.elements).collectedFootnotes
      omega
    simp only [hzlen, if_neg, if_false]
    rw [hspec]

/-- C4 witness: the flush closed form evaluated at a concrete state with one
pending footnote, and the document-end flush on a concrete document with
one footnote reference. -/
theorem claim_C4_witness :
    UdfGenerator.appendFootnotesSection sampleFnState
        = { sampleFnState with
            content := sampleFnState.content
              ++ UdfGenerator.sectionText sampleFnState.collectedFootnotes,
            elements := sampleFnState.elements
              ++ UdfGenerator.sectionElems sampleFnState.currentOffset
                  sampleFnState.collectedFootnotes,
            currentOffset := sampleFnState.currentOffset
              + (UdfGenerator.sectionText sampleFnState.collectedFootnotes).length } ∧
      (UdfGenerator.generate sampleFnDoc).elements
        = (UdfGenerator.processBlocks UdfGenerator.initState sampleFnDoc.elements).elements
          ++ UdfGenerator.sectionElems
              (UdfGenerator.processBlocks UdfGenerator.initState sampleFnDoc.elements).currentOffset
              (UdfGenerator.processBlocks UdfGenerator.initState sampleFnDoc.elements).collectedFootnotes :=
  ⟨(claim_C4 sampleFnState sampleFnDoc).1,
   (claim_C4 sampleFnState sampleFnDoc).2.2.2 (by decide)⟩

/-! ## C9: the plain generator agrees with the footnote-aware one -/

theorem buildContentAttrs_eq (t : TextRun) :
    JsUdfGenerator.buildContentAttrs t = UdfGenerator.buildContentAttrs t := rfl

theorem buildParagraphAttrs_eq (p : Paragraph) :
    JsUdfGenerator.buildParagraphAttrs p = UdfGenerator.buildParagraphAttrs p := rfl

theorem cellAttrs_eq (c : Cell) :
    JsUdfGenerator.cellAttrs c = UdfGenerator.cellAttrs c := rfl

theorem generateXml_eq (st : UdfGenerator.GenState) :
    JsUdfGenerator.generateXml (eraseFn st) = UdfGenerator.generateXml st := rfl

theorem UdfGenerator.processParagraphRuns_fnEmpty (runs : List Run) (p : Paragraph)
    (h : runs.all (fun r => !r.isFootnoteRef) = true) :
    ∀ (st : UdfGenerator.GenState) (pc : List String) (pe : List Leaf),
    st.collectedFootnotes = [] →
    (UdfGenerator.processParagraphRuns p st pc pe runs).collectedFootnotes = [] := by
  induction runs with
  | nil =>
    intro st pc pe hfn
    simp only [UdfGenerator.processParagraphRuns]
    cases hpc : pc.isEmpty <;> simp only [hpc, Bool.false_eq_true, if_false, if_true] <;> exact hfn
  | cons r rest ih =>
    intro st pc pe hfn
    cases r with
    | text t =>
      simp only [UdfGenerator.processParagraphRuns]
      exact ih (allTail h) _ _ _ hfn
    | tab =>
      simp only [UdfGenerator.processParagraphRuns]
      exact ih (allTail h) _ _ _ hfn
    | image data w hh =>
      simp only [UdfGenerator.processParagraphRuns]
      split
      · exact ih (allTail h) _ _ _ hfn
      · exact ih (allTail h) _ _ _ hfn
    | brk =>
      simp only [UdfGenerator.processParagraphRuns]
      exact ih (allTail h) _ _ _ hfn
    | pageBreak =>
      simp only [UdfGenerator.processParagraphRuns]
      cases hpe : pe.isEmpty <;>
        simp only [hpe, Bool.false_eq_true, if_false, if_true, hfn, List.isEmpty_nil]
    | footnoteRef id content =>
      have := allHead h
      simp [Run.isFootnoteRef] at this

theorem JsUdfGenerator.processCellRuns_corr (runs : List Run)
    (h : runs.all (fun r => !r.isFootnoteRef) = true) :
    ∀ (st : UdfGenerator.GenState) (acc : List Leaf),
    JsUdfGenerator.processCellRuns (eraseFn st) acc runs
      = (eraseFn (UdfGenerator.processCellRuns st acc runs).1,
         (UdfGenerator.processCellRuns st acc runs).2) := by
  induction runs with
  | nil => intro st acc; rfl
  | cons r rest ih =>
    intro st acc
    cases r with
    | text t =>
      simp only [UdfGenerator.processCellRuns, JsUdfGenerator.processCellRuns]
      exact ih (allTail h) { st with content := st.content ++ t.text, currentOffset := st.currentOffset + t.text.length } (acc ++ [Leaf.content st.currentOffset t.text.length (UdfGenerator.buildContentAttrs t)])
    | tab =>
      simp only [UdfGenerator.processCellRuns, JsUdfGenerator.processCellRuns]
      exact ih (allTail h) { st with content := st.content ++ "\t", currentOffset := st.currentOffset + 1 } (acc ++ [Leaf.tab st.currentOffset])
    | image data w hh =>
      simp only [UdfGenerator.processCellRuns, JsUdfGenerator.processCellRuns]
      split
      · exact ih (allTail h) { st with content := st.content ++ "￼", currentOffset := st.currentOffset + 1 } (acc ++ [Leaf.image st.currentOffset (data.getD "") w hh])
      · exact ih (allTail h) st acc
    | brk =>
      simp only [UdfGenerator.processCellRuns, JsUdfGenerator.processCellRuns]
      exact ih (allTail h) st acc
    | pageBreak =>
      simp only [UdfGenerator.processCellRuns, JsUdfGenerator.processCellRuns]
      exact ih (allTail h) st acc
    | footnoteRef id content =>
      have := allHead h
      simp [Run.isFootnoteRef] at this

theorem consSnd {α β : Type} {q r : α × List β} (x : β) (h : q = r) :
    (q.1, x :: q.2) = (r.1, x :: r.2) := by rw [h]

theorem JsUdfGenerator.processCellParagraphs_corr (ps : List Paragraph)
    (h : ps.all Paragraph.noFn = true) :
    ∀ (st : UdfGenerator.GenState),
    JsUdfGenerator.processCellParagraphs (eraseFn st) ps
      = (eraseFn (UdfGenerator.processCellParagraphs st ps).1,
         (UdfGenerator.processCellParagraphs st ps).2) := by
  induction ps with
  | nil => intro st; rfl
  | cons p rest ih =>
    intro st
    have hp : Paragraph.noFn p = true := allHead h
    simp only [UdfGenerator.processCellParagraphs, JsUdfGenerator.processCellParagraphs]
    rw [JsUdfGenerator.processCellRuns_corr p.runs hp st [], buildParagraphAttrs_eq]
    by_cases hemp : (UdfGenerator.processCellRuns st [] p.runs).2.isEmpty
    · by_cases hrest : rest.isEmpty
      · simp only [hemp, hrest, if_true]
        exact consSnd _ (ih (allTail h) { (UdfGenerator.processCellRuns st [] p.runs).1 with content := (UdfGenerator.processCellRuns st [] p.runs).1.content ++ " ", currentOffset := (UdfGenerator.processCellRuns st [] p.runs).1.currentOffset + 1 })
      · simp only [hemp, hrest, Bool.false_eq_true, if_true, if_false]
        exact consSnd _ (ih (allTail h) { (UdfGenerator.processCellRuns st [] p.runs).1 with content := (UdfGenerator.processCellRuns st [] p.runs).1.content ++ " " ++ "\n", currentOffset := (UdfGenerator.processCellRuns st [] p.runs).1.currentOffset + 1 + 1 })
    · by_cases hrest : rest.isEmpty
      · simp only [hemp, hrest, Bool.false_eq_true, if_true, if_false]
        exact consSnd _ (ih (allTail h) (UdfGenerator.processCellRuns st [] p.runs).1)
      · simp only [hemp, hrest, Bool.false_eq_true, if_false]
        exact consSnd _ (ih (allTail h) { (UdfGenerator.processCellRuns st [] p.runs).1 with content := (UdfGenerator.processCellRuns st [] p.runs).1.content ++ "\n", currentOffset := (UdfGenerator.processCellRuns st [] p.runs).1.currentOffset + 1 })

theorem JsUdfGenerator.processTableCell_corr (c : Cell) (h : Cell.noFn c = true)
    (st : UdfGenerator.GenState) :
    JsUdfGenerator.processTableCell (eraseFn st) c
      = (eraseFn (UdfGenerator.processTableCell st c).1,
         (UdfGenerator.processTableCell st c).2) := by
  simp only [UdfGenerator.processTableCell, JsUdfGenerator.processTableCell]
  rw [JsUdfGenerator.processCellParagraphs_corr c.paragraphs h st]
  by_cases hemp : (UdfGenerator.processCellParagraphs st c.paragraphs).2.isEmpty
  · simp only [hemp, if_true]
    rfl
  · simp only [hemp, Bool.false_eq_true, if_false]

theorem JsUdfGenerator.processRowCells_corr (cs : List Cell)
    (h : cs.all Cell.noFn = true) :
    ∀ (st : UdfGenerator.GenState),
    JsUdfGenerator.processRowCells (eraseFn st) cs
      = (eraseFn (UdfGenerator.processRowCells st cs).1,
         (UdfGenerator.processRowCells st cs).2) := by
  induction cs with
  | nil => intro st; rfl
  | cons c rest ih =>
    intro st
    simp only [UdfGenerator.processRowCells, JsUdfGenerator.processRowCells, cellAttrs_eq]
    by_cases hvm : c.vMergeContinue
    · simp only [hvm, if_true]
      exact ih (allTail h) st
    · simp only [hvm, Bool.false_eq_true, if_false]
      rw [JsUdfGenerator.processTableCell_corr c (allHead h) st]
      exact consSnd _ (ih (allTail h) (UdfGenerator.processTableCell st c).1)

theorem JsUdfGenerator.processTableRows_corr (rs : List Row)
    (h : rs.all (fun r => r.cells.all Cell.noFn) = true) :
    ∀ (st : UdfGenerator.GenState),
    JsUdfGenerator.processTableRows (eraseFn st) rs
      = (eraseFn (UdfGenerator.processTableRows st rs).1,
         (UdfGenerator.processTableRows st rs).2) := by
  induction rs with
  | nil => intro st; rfl
  | cons r rest ih =>
    intro st
    have hr : r.cells.all Cell.noFn = true :=
      allHead (p := fun (r : Row) => r.cells.all Cell.noFn) h
    simp only [UdfGenerator.processTableRows, JsUdfGenerator.processTableRows]
    rw [JsUdfGenerator.processRowCells_corr r.cells hr st]
    exact consSnd _ (ih (allTail h) (UdfGenerator.processRowCells st r.cells).1)

theorem JsUdfGenerator.processTable_corr (t : Table) (h : Table.noFn t = true)
    (st : UdfGenerator.GenState) :
    JsUdfGenerator.processTable (eraseFn st) t
      = eraseFn (UdfGenerator.processTable st t) := by
  simp only [UdfGenerator.processTable, JsUdfGenerator.processTable]
  rw [JsUdfGenerator.processTableRows_corr t.rows h st]
  rfl

theorem JsUdfGenerator.processParagraphRuns_corr (runs : List Run) (p : Paragraph)
    (h : runs.all (fun r => !r.isFootnoteRef) = true) :
    ∀ (st : UdfGenerator.GenState) (pc : List String) (pe : List Leaf),
    st.collectedFootnotes = [] →
    JsUdfGenerator.processParagraphRuns p (eraseFn st) pc pe runs
      = eraseFn (UdfGenerator.processParagraphRuns p st pc pe runs) := by
  induction runs with
  | nil =>
    intro st pc pe hfn
    simp only [UdfGenerator.processParagraphRuns, JsUdfGenerator.processParagraphRuns]
    cases hpc : pc.isEmpty <;> simp only [hpc, Bool.false_eq_true, if_false, if_true] <;> rfl
  | cons r rest ih =>
    intro st pc pe hfn
    cases r with
    | text t =>
      simp only [UdfGenerator.processParagraphRuns, JsUdfGenerator.processParagraphRuns]
      exact ih (allTail h) { st with currentOffset := st.currentOffset + t.text.length } (pc ++ [t.text]) (pe ++ [Leaf.content st.currentOffset t.text.length (UdfGenerator.buildContentAttrs t)]) hfn
    | tab =>
      simp only [UdfGenerator.processParagraphRuns, JsUdfGenerator.processParagraphRuns]
      exact ih (allTail h) { st with currentOffset := st.currentOffset + 1 } (pc ++ ["\t"]) (pe ++ [Leaf.tab st.currentOffset]) hfn
    | image data w hh =>
      simp only [UdfGenerator.processParagraphRuns, JsUdfGenerator.processParagraphRuns]
      split
      · exact ih (allTail h) { st with currentOffset := st.currentOffset + 1 } (pc ++ ["￼"]) (pe ++ [Leaf.image st.currentOffset (data.getD "") w hh]) hfn
      · exact ih (allTail h) st pc pe hfn
    | brk =>
      simp only [UdfGenerator.processParagraphRuns, JsUdfGenerator.processParagraphRuns]
      exact ih (allTail h) { st with currentOffset := st.currentOffset + 1 } (pc ++ ["\n"]) pe hfn
    | pageBreak =>
      simp only [UdfGenerator.processParagraphRuns, JsUdfGenerator.processParagraphRuns]
      cases hpe : pe.isEmpty <;>
        simp only [hpe, Bool.false_eq_true, if_false, if_true, hfn, List.isEmpty_nil] <;> rfl
    | footnoteRef id content =>
      have := allHead h
      simp [Run.isFootnoteRef] at this

theorem JsUdfGenerator.processBlocks_corr (bs : List DocBlock)
    (h : bs.all DocBlock.noFn = true) :
    ∀ (st : UdfGenerator.GenState), st.collectedFootnotes = [] →
    JsUdfGenerator.processBlocks (eraseFn st) bs
      = eraseFn (UdfGenerator.processBlocks st bs) ∧
    (UdfGenerator.processBlocks st bs).collectedFootnotes = [] := by
  induction bs with
  | nil => intro st hfn; exact ⟨rfl, hfn⟩
  | cons b rest ih =>
    intro st hfn
    cases b with
    | paragraph p =>
      have hp : Paragraph.noFn p = true := allHead (p := DocBlock.noFn) h
      have hstep : JsUdfGenerator.processParagraph (eraseFn st) p
          = eraseFn (UdfGenerator.processParagraph st p) :=
        JsUdfGenerator.processParagraphRuns_corr p.runs p hp st [] [] hfn
      have hcoll : (UdfGenerator.processParagraph st p).collectedFootnotes = [] :=
        UdfGenerator.processParagraphRuns_fnEmpty p.runs p hp st [] [] hfn
      simp only [UdfGenerator.processBlocks, JsUdfGenerator.processBlocks]
      rw [hstep]
      exact ih (allTail h) _ hcoll
    | table t =>
      have ht : Table.noFn t = true := allHead (p := DocBlock.noFn) h
      have hcoll : (UdfGenerator.processTable st t).collectedFootnotes = [] := by
        rw [UdfGenerator.processTable_noFn t st ht]
        exact hfn
      simp only [UdfGenerator.processBlocks, JsUdfGenerator.processBlocks]
      rw [JsUdfGenerator.processTable_corr t ht st]
      exact ih (allTail h) _ hcoll

theorem JsUdfGenerator.generate_corr (doc : Document)
    (h : Document.noFn doc = true) :
    JsUdfGenerator.generate doc = eraseFn (UdfGenerator.generate doc) := by
  have hinit : UdfGenerator.initState.collectedFootnotes = [] := rfl
  obtain ⟨hblocks, hcoll⟩ :=
    JsUdfGenerator.processBlocks_corr doc.elements h UdfGenerator.initState hinit
  simp only [UdfGenerator.generate, JsUdfGenerator.generate]
  have hjs : (JsUdfGenerator.initState : JsUdfGenerator.GenState)
      = eraseFn UdfGenerator.initState := rfl
  rw [hjs, hblocks, hcoll]
  simp only [List.isEmpty_nil, if_true]
  by_cases hlen : (UdfGenerator.processBlocks UdfGenerator.initState doc.elements).content.length = 0
  · simp only [eraseFn] at hlen ⊢
    simp only [hlen, if_pos]
  · simp only [eraseFn] at hlen ⊢
    simp only [hlen, if_neg, if_false]

/-- C9: on every document without footnote-reference runs, the generator of
`src/js/udf-generator.js` and the footnote-aware generator of
`src/unnamed/part_000` produce the same content buffer, the same element
list, and the same final XML string. -/
theorem claim_C9 (doc : Document) (h : Document.noFn doc = true) :
    (JsUdfGenerator.generate doc).content = (UdfGenerator.generate doc).content ∧
    (JsUdfGenerator.generate doc).elements = (UdfGenerator.generate doc).elements ∧
    JsUdfGenerator.generateXml (JsUdfGenerator.generate doc)
      = UdfGenerator.generateXml (UdfGenerator.generate doc) := by
  have hg := JsUdfGenerator.generate_corr doc h
  refine ⟨?_, ?_, ?_⟩ <;> rw [hg] <;> rfl

/-- C9 witness: the theorem applied to a concrete footnote-free document. -/
theorem claim_C9_witness :
    Document.noFn sampleTextDoc = true ∧
    ((JsUdfGenerator.generate sampleTextDoc).content
        = (UdfGenerator.generate sampleTextDoc).content ∧
     (JsUdfGenerator.generate sampleTextDoc).elements
        = (UdfGenerator.generate sampleTextDoc).elements ∧
     JsUdfGenerator.generateXml (JsUdfGenerator.generate sampleTextDoc)
        = UdfGenerator.generateXml (UdfGenerator.generate sampleTextDoc)) :=
  ⟨by decide, claim_C9 sampleTextDoc (by decide)⟩
